import Mathlib

/-!
# Formal model of the ant-cache storage, durability and dispatch core

A shallow embedding of the Go sources of the `ant-cache` repository:

* `src/cache/cache.go` — the keyspace (`Cache`), the expiry min-heap
  (`ExpirationHeap`, driven through Go's `container/heap`), and the
  operations `Set`, `SetNX`, `Get`, `GetMultiple`, `Delete`, `Cleanup`,
  `Keys`, `FlushAll`.
* the persistence manager (package `cache`) — ACL command-log parsing and
  replay (`LoadAcl`), log compaction (`compactAclFiles`), and the binary
  ATD snapshot writer/reader (`SaveAtd` / `LoadAtd` and their helpers).
* `src/utils/command_parser.go` — `ParseCommandWithQuotes` and `ParseTTL`.
* `src/tcpserver/single_goroutine_server.go` and the pooled server in
  `src/tcpserver/server.go` — the two `processCommandDirect` dispatchers,
  plus the per-connection handler path (`handleConnection` and the
  `CommandHandler` implementations `SetCommand`, `GetCommand`, ...).

Modelling conventions:

* Machine integers (`int64` nanosecond timestamps, `time.Duration`) are
  embedded as `Int`; byte strings are Lean `String`s viewed as lists of
  abstract byte-characters (`Char`), with lengths measured in those units
  (identical to Go's byte lengths on ASCII data).
* Go maps (`map[string]*CacheItem`, `map[string]string`, ...) are embedded
  as association lists with replace-on-insert semantics; enumeration order
  is the list order.
* Go's pointer aliasing between the items map and the expiry heap is
  embedded with value semantics: each heap slot stores the item record and
  the heap operations maintain the `index` back-pointers inside the heap
  list, exactly as `ExpirationHeap.Swap/Push/Pop` do.  The items-map copy
  keeps the index assigned at push time.  No theorem below depends on a
  map-side `index` after a later heap shuffle.
* `time.Now()` is passed explicitly as a `now : Int` parameter.
* `CompressValue` / `DecompressValue` are called by `cache.go` but their
  defining file is not part of the sources; per the specification they are
  opaque and may be identity functions, and are modelled as the identity.
-/

namespace AntCache

/-- The three value shapes stored by the cache: `string`, `[]string`,
`map[string]string` (the Go map embedded as an association list). -/
inductive Value where
  | str (s : String)
  | arr (elems : List String)
  | obj (entries : List (String × String))
deriving DecidableEq, Repr

/-- The type-discriminant switch that both `Cache.Set` and `Cache.SetNX`
(and the ACL replay) perform on `value.(type)`. -/
def dataTypeOf : Value → String
  | .arr _ => "array"
  | .obj _ => "object"
  | .str _ => "string"

/-- Modelled from the spec: the compression hook `CompressValue` called by
`Cache.Set`/`Cache.SetNX` is defined in a file that is not part of the
sources; the spec declares compression opaque, possibly the identity.  We
model it as the identity. -/
def CompressValue (v : Value) : Value := v

/-- Modelled from the spec: the `DecompressValue` hook used by
`Cache.Get`/`Cache.GetMultiple`, identity for the same reason. -/
def DecompressValue (v : Value) : Value := v

/-- `CacheItem` from `cache.go`.  Go zero values: `Expiration = 0`,
`index = 0`. -/
structure CacheItem where
  value : Value
  expiration : Int := 0
  index : Int := 0
  key : String
  type : String
deriving DecidableEq, Repr

instance : Inhabited CacheItem := ⟨{ value := .str "", key := "", type := "" }⟩

/-! ## The expiry min-heap (`ExpirationHeap` + Go `container/heap`) -/

/-- `ExpirationHeap.Less`: compare the `Expiration` fields at two heap
positions. -/
def hLess (h : List CacheItem) (i j : Nat) : Bool :=
  (h.getD i default).expiration < (h.getD j default).expiration

/-- `ExpirationHeap.Swap`: exchange slots `i` and `j` and refresh both
`index` back-pointers. -/
def hSwap (h : List CacheItem) (i j : Nat) : List CacheItem :=
  let a := h.getD i default
  let b := h.getD j default
  let h := h.set i { b with index := (i : Int) }
  h.set j { a with index := (j : Int) }

/-- `container/heap`'s `up` with an explicit iteration bound; the parent
index `(j - 1) / 2` strictly decreases, so `j + 1` iterations always
suffice. -/
def heapUpAux (fuel : Nat) (h : List CacheItem) (j : Nat) : List CacheItem :=
  match fuel with
  | 0 => h
  | fuel + 1 =>
    if j = 0 then h
    else
      let i := (j - 1) / 2
      if hLess h j i then heapUpAux fuel (hSwap h i j) i else h

/-- `container/heap`'s `up`: sift position `j` towards the root. -/
def heapUp (h : List CacheItem) (j : Nat) : List CacheItem :=
  heapUpAux (j + 1) h j

/-- `container/heap`'s `down`: sift position `i` down within `h[0:n]`.
The `fuel` argument bounds the number of iterations; every loop step at
least doubles `i + 1`, so `n` iterations always suffice. -/
def heapDownAux (fuel : Nat) (h : List CacheItem) (i n : Nat) :
    List CacheItem × Nat :=
  match fuel with
  | 0 => (h, i)
  | fuel + 1 =>
    let j1 := 2 * i + 1
    if j1 ≥ n then (h, i)
    else
      let j2 := j1 + 1
      let j := if j2 < n ∧ hLess h j2 j1 then j2 else j1
      if hLess h j i then heapDownAux fuel (hSwap h i j) j n
      else (h, i)

/-- `down(h, i0, n)` returning the updated heap and whether anything
moved (`i > i0`). -/
def heapDown (h : List CacheItem) (i0 n : Nat) : List CacheItem × Bool :=
  let (h', i) := heapDownAux n h i0 n
  (h', i > i0)

/-- `heap.Push`: `ExpirationHeap.Push` (append with `index = n`) followed
by `up(h, n)`. -/
def heapPushGo (h : List CacheItem) (item : CacheItem) : List CacheItem :=
  let n := h.length
  let h := h ++ [{ item with index := (n : Int) }]
  heapUp h n

/-- `ExpirationHeap.Pop`: drop the last slot, marking its `index = -1`;
returns the removed item. -/
def heapRawPop (h : List CacheItem) : List CacheItem × Option CacheItem :=
  match h.getLast? with
  | none => (h, none)
  | some item => (h.dropLast, some { item with index := -1 })

/-- `heap.Pop`: swap root and last, sift the root down within `h[0:n-1]`,
then `ExpirationHeap.Pop`. -/
def heapPopGo (h : List CacheItem) : List CacheItem × Option CacheItem :=
  if h.length = 0 then (h, none)
  else
    let n := h.length - 1
    let h := hSwap h 0 n
    let (h, _) := heapDown h 0 n
    heapRawPop h

/-- `heap.Remove(h, i)`: swap `i` with the last slot, re-establish heap
order around `i`, then pop the last slot. -/
def heapRemoveGo (h : List CacheItem) (i : Nat) : List CacheItem :=
  if h.length = 0 then h
  else
    let n := h.length - 1
    if i ≠ n then
      let h := hSwap h i n
      let (h, moved) := heapDown h i n
      let h := if moved then h else heapUp h i
      (heapRawPop h).1
    else (heapRawPop h).1

/-! ## The keyspace (`Cache`) -/

/-- The items map (association list, replace-on-insert) plus the expiry
heap. -/
structure Cache where
  items : List (String × CacheItem)
  expirationHeap : List CacheItem
deriving DecidableEq, Repr

/-- Go map lookup `c.items[key]`. -/
def lookupItem (items : List (String × CacheItem)) (key : String) :
    Option CacheItem :=
  match items.find? (fun p => p.1 = key) with
  | some p => some p.2
  | none => none

/-- Go map assignment `c.items[key] = item` (replace in place, else
append). -/
def insertItem (items : List (String × CacheItem)) (key : String)
    (item : CacheItem) : List (String × CacheItem) :=
  match items with
  | [] => [(key, item)]
  | (k, v) :: rest =>
    if k = key then (key, item) :: rest
    else (k, v) :: insertItem rest key item

/-- Go `delete(c.items, key)`. -/
def removeItem (items : List (String × CacheItem)) (key : String) :
    List (String × CacheItem) :=
  items.filter (fun p => ¬ p.1 = key)

/-- `cache.New()`. -/
def Cache.New : Cache := { items := [], expirationHeap := [] }

/-- `Cache.Set` (`cache.go:167`): unconditional map assignment.  The item
is pushed onto the expiry heap when `ttl > 0`; note that the previous
item's heap entry (if any) is *not* removed. -/
def Cache.Set (c : Cache) (key : String) (value : Value) (ttl now : Int) :
    Cache :=
  let dataType := dataTypeOf value
  let compressedValue := CompressValue value
  let item : CacheItem :=
    { value := compressedValue, key := key, type := dataType }
  let (item, heap) :=
    if ttl > 0 then
      let item := { item with expiration := now + ttl }
      ({ item with index := (c.expirationHeap.length : Int) },
        heapPushGo c.expirationHeap item)
    else (item, c.expirationHeap)
  { items := insertItem c.items key item, expirationHeap := heap }

/-- `Cache.SetNX` (`cache.go:214`): refuse when the key exists and is not
expired; the expiry test is `item.Expiration > 0 && now > item.Expiration`
(strict).  Returns the flag and the (possibly unchanged) state. -/
def Cache.SetNX (c : Cache) (key : String) (value : Value) (ttl now : Int) :
    Bool × Cache :=
  let proceed : Bool :=
    match lookupItem c.items key with
    | some item => decide (item.expiration > 0 ∧ now > item.expiration)
    | none => true
  if proceed then (true, c.Set key value ttl now)
  else (false, c)

/-- `Cache.Get` (`cache.go:271`): lazy expiry rejection, no eager
removal. -/
def Cache.Get (c : Cache) (key : String) (now : Int) : Option Value :=
  match lookupItem c.items key with
  | none => none
  | some item =>
    if item.expiration > 0 ∧ now > item.expiration then none
    else some (DecompressValue item.value)

/-- `Cache.GetMultiple` (`cache.go:299`): per-key lookup with the same
expiry test, misses and expired keys skipped.  The Go result map is
embedded as an association list built by replace-on-insert. -/
def Cache.GetMultiple (c : Cache) (keys : List String) (now : Int) :
    List (String × Value) :=
  keys.foldl
    (fun result key =>
      match lookupItem c.items key with
      | some item =>
        if item.expiration > 0 ∧ now > item.expiration then result
        else
          match result.find? (fun p => p.1 = key) with
          | some _ => result.map (fun p =>
              if p.1 = key then (key, DecompressValue item.value) else p)
          | none => result ++ [(key, DecompressValue item.value)]
      | none => result)
    []

/-- `Cache.Delete` (`cache.go:328`): remove the map entry; remove the heap
entry when `Expiration > 0 && index >= 0`. -/
def Cache.Delete (c : Cache) (key : String) : Bool × Cache :=
  match lookupItem c.items key with
  | some item =>
    let heap :=
      if item.expiration > 0 ∧ item.index ≥ 0 then
        heapRemoveGo c.expirationHeap item.index.toNat
      else c.expirationHeap
    (true, { items := removeItem c.items key, expirationHeap := heap })
  | none => (false, c)

/-- One iteration bound for `Cache.Cleanup`'s pop loop. -/
def cleanupAux (fuel : Nat) (c : Cache) (now : Int) : Cache :=
  match fuel with
  | 0 => c
  | fuel + 1 =>
    match c.expirationHeap.head? with
    | none => c
    | some item =>
      if item.expiration > now then c
      else
        let (heap, _) := heapPopGo c.expirationHeap
        cleanupAux fuel
          { items := removeItem c.items item.key, expirationHeap := heap }
          now

/-- `Cache.Cleanup` (`cache.go:356`): pop the heap root while its
`Expiration ≤ now`, deleting `items[item.key]` for each popped entry. -/
def Cache.Cleanup (c : Cache) (now : Int) : Cache :=
  cleanupAux c.expirationHeap.length c now

/-- `Cache.Keys` (`cache.go:383`): non-expired keys, `"*"` matches all,
any other pattern matches nothing. -/
def Cache.Keys (c : Cache) (pattern : String) (now : Int) : List String :=
  (c.items.filter (fun p =>
      ¬ (p.2.expiration > 0 ∧ p.2.expiration < now) ∧ pattern = "*")).map
    (fun p => p.1)

/-- `Cache.FlushAll` (`cache.go:587`): pre-clear count, both structures
reset. -/
def Cache.FlushAll (c : Cache) : Nat × Cache :=
  (c.items.length, Cache.New)

/-! ## The tokenizer (`utils.ParseCommandWithQuotes`) -/

/-- Go `unicode.IsSpace` restricted to the ASCII whitespace characters
relevant to single-line commands (what `strings.TrimSpace` strips). -/
def isSpaceGo (c : Char) : Bool :=
  c = ' ' ∨ c = '\t' ∨ c = '\n' ∨ c = '\r' ∨ c = '\x0b' ∨ c = '\x0c'

/-- `strings.TrimSpace`. -/
def trimSpaceGo (cs : List Char) : List Char :=
  ((cs.dropWhile isSpaceGo).reverse.dropWhile isSpaceGo).reverse

/-- The in-quote escape table of `ParseCommandWithQuotes`: the sequences
`\n \t \r \\ \" \'` yield their literal character, any other `\X` keeps
both characters. -/
def escMap (c : Char) : List Char :=
  if c = 'n' then ['\n']
  else if c = 't' then ['\t']
  else if c = 'r' then ['\r']
  else if c = '\\' then ['\\']
  else if c = '"' then ['"']
  else if c = '\'' then ['\'']
  else ['\\', c]

/-- The tokenizer loop state: emitted `parts`, the `current` builder, and
the quoting mode. -/
structure ParseState where
  parts : List String
  current : List Char
  inQuotes : Bool
  quoteChar : Char
deriving DecidableEq, Repr

/-- The character loop of `ParseCommandWithQuotes`, one constructor case
per character.  The Go source's inner whitespace-skipping loop only skips
characters that would be no-ops here (whitespace seen while `current` is
empty), so consuming them one at a time is equivalent.  An escape
consumes the following character, hence the two-deep list pattern. -/
def parseLoopF : Nat → ParseState → List Char → ParseState
  | 0, st, _ => st
  | _ + 1, st, [] => st
  | fuel + 1, st, c :: cs =>
    if st.inQuotes = false then
      if c = '"' ∨ c = '\'' then
        parseLoopF fuel { st with inQuotes := true, quoteChar := c } cs
      else if c = ' ' ∨ c = '\t' then
        if st.current ≠ [] then
          parseLoopF fuel
            { st with parts := st.parts ++ [String.mk st.current],
                      current := [] } cs
        else parseLoopF fuel st cs
      else parseLoopF fuel { st with current := st.current ++ [c] } cs
    else
      if c = st.quoteChar then
        parseLoopF fuel { st with inQuotes := false, quoteChar := '\x00' } cs
      else if c = '\\' then
        match cs with
        | d :: rest =>
          parseLoopF fuel { st with current := st.current ++ escMap d } rest
        | [] => parseLoopF fuel { st with current := st.current ++ [c] } []
      else parseLoopF fuel { st with current := st.current ++ [c] } cs

/-- The character loop run to completion: every iteration consumes at
least one character, so `cs.length` iterations always suffice. -/
def parseLoop (st : ParseState) (cs : List Char) : ParseState :=
  parseLoopF cs.length st cs

/-- The trailing `if current.Len() > 0` flush of the final part. -/
def parseFinish (st : ParseState) : List String :=
  st.parts ++ (if st.current ≠ [] then [String.mk st.current] else [])

/-- The initial tokenizer state. -/
def parseInit : ParseState :=
  { parts := [], current := [], inQuotes := false, quoteChar := '\x00' }

/-- `utils.ParseCommandWithQuotes` (`command_parser.go:53`). -/
def ParseCommandWithQuotes (input : String) : List String :=
  parseFinish (parseLoop parseInit (trimSpaceGo input.data))

/-- Applying the in-quote escape processing to a whole character
sequence, mirroring the escape case of `parseLoop`. -/
def escChars : List Char → List Char
  | [] => []
  | c :: cs =>
    if c = '\\' then
      match cs with
      | d :: rest => escMap d ++ escChars rest
      | [] => [c]
    else c :: escChars cs

/-- `noCloseQuote q cs`: scanning `cs` in in-quote mode with quote
character `q` never finds the matching closing quote (escapes consume the
following character first, so an escaped `q` does not close). -/
def noCloseQuote (q : Char) : List Char → Bool
  | [] => true
  | c :: cs =>
    if c = q then false
    else if c = '\\' then
      match cs with
      | _ :: rest => noCloseQuote q rest
      | [] => true
    else noCloseQuote q cs

/-! ## TTL parsing (`utils.ParseTTL`) -/

/-- Decimal digit accumulation for `strconv.Atoi`. -/
def digitsToNat (cs : List Char) : Nat :=
  cs.foldl (fun acc c => acc * 10 + (c.toNat - '0'.toNat)) 0

/-- `strconv.Atoi` on small inputs: optional sign followed by a nonempty
digit string (the 64-bit range check never fires on the inputs modelled
here). -/
def atoiGo (s : String) : Option Int :=
  match s.data with
  | [] => none
  | '+' :: ds =>
    if ds ≠ [] ∧ ds.all Char.isDigit then some (digitsToNat ds) else none
  | '-' :: ds =>
    if ds ≠ [] ∧ ds.all Char.isDigit then some (-(digitsToNat ds : Int))
    else none
  | ds =>
    if ds.all Char.isDigit then some (digitsToNat ds) else none

/-- Nanoseconds per second (`time.Second`). -/
def nsPerSecond : Int := 1000000000

/-- ASCII lower-casing of one character. -/
def toLowerChar (c : Char) : Char :=
  if 'A' ≤ c ∧ c ≤ 'Z' then Char.ofNat (c.toNat + 32) else c

/-- ASCII `strings.ToLower`. -/
def toLowerGo (s : String) : String := ⟨s.data.map toLowerChar⟩

/-- The regex `^(\d+)([smhdy])$` of `ParseTTL`: a nonempty digit string
followed by a single unit letter. -/
def matchTTLUnits (s : String) : Option (Nat × Char) :=
  match s.data.getLast? with
  | none => none
  | some u =>
    let ds := s.data.dropLast
    if ds ≠ [] ∧ ds.all Char.isDigit ∧
        (u = 's' ∨ u = 'm' ∨ u = 'h' ∨ u = 'd' ∨ u = 'y') then
      some (digitsToNat ds, u)
    else none

/-- `utils.ParseTTL` (`command_parser.go:13`), returning nanoseconds or
the Go error message. -/
def ParseTTL (ttlStr : String) : Except String Int :=
  if ttlStr = "" then .ok 0
  else
    match atoiGo ttlStr with
    | some num => .ok (num * nsPerSecond)
    | none =>
      match matchTTLUnits (toLowerGo ttlStr) with
      | none => .error ("invalid TTL format: " ++ ttlStr)
      | some (num, u) =>
        if u = 's' then .ok (num * nsPerSecond)
        else if u = 'm' then .ok (num * 60 * nsPerSecond)
        else if u = 'h' then .ok (num * 3600 * nsPerSecond)
        else if u = 'd' then .ok (num * 24 * 3600 * nsPerSecond)
        else .ok (num * 365 * 24 * 3600 * nsPerSecond)

/-! ## Go string formatting helpers -/

/-- ASCII upper-casing of one character. -/
def toUpperChar (c : Char) : Char :=
  if 'a' ≤ c ∧ c ≤ 'z' then Char.ofNat (c.toNat - 32) else c

/-- ASCII `strings.ToUpper`. -/
def toUpperGo (s : String) : String := ⟨s.data.map toUpperChar⟩

/-- `strings.Join(elems, sep)`. -/
def stringsJoin (elems : List String) (sep : String) : String :=
  match elems with
  | [] => ""
  | x :: xs => xs.foldl (fun acc e => acc ++ sep ++ e) x

/-- `fmt.Sprintf("%v", value)` for the three stored value shapes; also the
ACL `value_literal` encoding of `writeCommandToAcl`: strings raw, arrays
`[e1 e2 …]`, objects `map[k1:v1 k2:v2 …]`. -/
def goFormatValue : Value → String
  | .str s => s
  | .arr xs => "[" ++ stringsJoin xs " " ++ "]"
  | .obj es =>
    "map[" ++ stringsJoin (es.map (fun p => p.1 ++ ":" ++ p.2)) " " ++ "]"

/-- Go map assignment `m[k] = v` for `map[string]string`. -/
def insertAssocStr (m : List (String × String)) (k v : String) :
    List (String × String) :=
  match m with
  | [] => [(k, v)]
  | (k', v') :: rest =>
    if k' = k then (k, v) :: rest else (k', v') :: insertAssocStr rest k v

/-- The pair-consuming loops of the `SETX` handlers: `obj[parts[i]] =
parts[i+1]`, with a trailing unpaired field mapped to `""` (the
`SetxCommand`/`SetxnxCommand` variant; the direct dispatchers enforce an
even count before calling this). -/
def pairsToObj : List String → List (String × String) →
    List (String × String)
  | [], m => m
  | [k], m => insertAssocStr m k ""
  | k :: v :: rest, m => pairsToObj rest (insertAssocStr m k v)

/-! ## `encoding/json` output (used by the GET reply formatting) -/

/-- Lower-case hex digit. -/
def hexDigit (n : Nat) : Char :=
  "0123456789abcdef".data.getD n '0'

/-- `encoding/json` escaping of one character inside a string literal
(with the default HTML escaping of `< > &`). -/
def jsonEscapeChar (c : Char) : List Char :=
  if c = '"' then ['\\', '"']
  else if c = '\\' then ['\\', '\\']
  else if c = '\n' then ['\\', 'n']
  else if c = '\r' then ['\\', 'r']
  else if c = '\t' then ['\\', 't']
  else if c = '<' ∨ c = '>' ∨ c = '&' ∨ c.toNat < 32 then
    ['\\', 'u', '0', '0', hexDigit (c.toNat / 16), hexDigit (c.toNat % 16)]
  else [c]

/-- A JSON string literal. -/
def jsonStringLit (s : String) : String :=
  "\"" ++ String.mk (s.data.foldr (fun c acc => jsonEscapeChar c ++ acc) [])
    ++ "\""

/-- Sort an association list by key (Go marshals map keys in sorted
order). -/
def insertSortedByKey (p : String × Value) :
    List (String × Value) → List (String × Value)
  | [] => [p]
  | q :: rest =>
    if p.1 < q.1 then p :: q :: rest else q :: insertSortedByKey p rest

/-- Insertion sort by key. -/
def sortByKey (m : List (String × Value)) : List (String × Value) :=
  m.foldr insertSortedByKey []

/-- `json.Marshal` of a `[]string` (compact). -/
def jsonMarshalArr (xs : List String) : String :=
  "[" ++ stringsJoin (xs.map jsonStringLit) "," ++ "]"

/-- `json.Marshal` of a `map[string]string` (compact, sorted keys). -/
def jsonMarshalObj (es : List (String × String)) : String :=
  "\x7b" ++
    stringsJoin
      ((sortByKey (es.map (fun p => (p.1, Value.str p.2)))).map
        (fun p => jsonStringLit p.1 ++ ":" ++
          match p.2 with
          | .str s => jsonStringLit s
          | v => jsonStringLit (goFormatValue v)))
      "," ++ "\x7d"

/-- `n` copies of the two-space indent unit of `MarshalIndent(v, "",
"  ")`. -/
def jsonInd : Nat → String
  | 0 => ""
  | n + 1 => jsonInd n ++ "  "

/-- `json.MarshalIndent(v, "", "  ")` of a stored value at nesting depth
`d`. -/
def jsonValueInd (d : Nat) : Value → String
  | .str s => jsonStringLit s
  | .arr [] => "[]"
  | .arr xs =>
    "[\n" ++
      stringsJoin (xs.map (fun x => jsonInd (d + 1) ++ jsonStringLit x))
        ",\n" ++ "\n" ++ jsonInd d ++ "]"
  | .obj [] => "\x7b\x7d"
  | .obj es =>
    "\x7b\n" ++
      stringsJoin
        ((sortByKey (es.map (fun p => (p.1, Value.str p.2)))).map
          (fun p => jsonInd (d + 1) ++ jsonStringLit p.1 ++ ": " ++
            match p.2 with
            | .str s => jsonStringLit s
            | v => jsonStringLit (goFormatValue v)))
        ",\n" ++ "\n" ++ jsonInd d ++ "\x7d"

/-- `json.MarshalIndent(results, "", "  ")` of the multi-key `GET` result
map (`map[string]interface{}`, keys sorted). -/
def jsonMarshalIndentTop (results : List (String × Value)) : String :=
  match sortByKey results with
  | [] => "\x7b\x7d"
  | es =>
    "\x7b\n" ++
      stringsJoin
        (es.map (fun p =>
          "  " ++ jsonStringLit p.1 ++ ": " ++ jsonValueInd 1 p.2))
        ",\n" ++ "\n\x7d"

/-! ## Authentication probe (`auth.AuthManager`) -/

/-- The probe surface used by the servers: `IsEnabled()` and
`VerifyPassword(password) (bool, error)`.  Credential storage and hashing
are opaque collaborators; `verify` is an abstract function. -/
structure AuthManager where
  enabled : Bool
  verify : String → Except String Bool

/-- `authManager != nil && authManager.IsEnabled()`. -/
def authIsEnabled : Option AuthManager → Bool
  | some am => am.enabled
  | none => false

namespace SingleGoroutineServer

/-- `SingleGoroutineServer.handleAuth`
(`single_goroutine_server.go:271`). -/
def handleAuth (authManager : Option AuthManager) (parts : List String)
    (authenticated : Bool) : String × Bool :=
  if parts.length ≠ 2 then ("ERROR AUTH requires password\n", authenticated)
  else
    let password := parts.getD 1 ""
    if authIsEnabled authManager then
      match (authManager.getD ⟨false, fun _ => .ok false⟩).verify password with
      | .error e => ("ERROR authentication error: " ++ e ++ "\n",
                     authenticated)
      | .ok true => ("OK authenticated\n", true)
      | .ok false => ("ERROR invalid password\n", authenticated)
    else ("OK no authentication required\n", true)

/-- `SingleGoroutineServer.parseTTLFromParts`
(`single_goroutine_server.go:296`). -/
def parseTTLFromParts (parts : List String) :
    Except String (Int × List String) :=
  let cmd := toUpperGo (parts.getD 0 "")
  if cmd = "DEL" ∨ cmd = "GET" ∨ cmd = "KEYS" ∨ cmd = "FLUSHALL" then
    .ok (0, parts)
  else if parts.length ≥ 4 ∧ parts.getD 2 "" = "-t" then
    match ParseTTL (parts.getD 3 "") with
    | .error e => .error ("invalid ttl value: " ++ e)
    | .ok ttlValue =>
      .ok (ttlValue, [parts.getD 0 "", parts.getD 1 ""] ++ parts.drop 4)
  else .ok (0, parts)

/-- `SingleGoroutineServer.processCommandDirect`
(`single_goroutine_server.go:131`): returns the reply together with the
updated cache and per-connection authenticated flag. -/
def processCommandDirect (authManager : Option AuthManager) (c : Cache)
    (authenticated : Bool) (command : String) (now : Int) :
    String × Cache × Bool :=
  let parts := ParseCommandWithQuotes command
  if parts.length < 1 then ("ERROR invalid command format\n", c, authenticated)
  else
    let cmd := toUpperGo (parts.getD 0 "")
    if cmd = "AUTH" then
      let (reply, auth) := handleAuth authManager parts authenticated
      (reply, c, auth)
    else if authIsEnabled authManager ∧ authenticated = false then
      ("ERROR authentication required\n", c, authenticated)
    else
      match parseTTLFromParts parts with
      | .error e => ("ERROR " ++ e ++ "\n", c, authenticated)
      | .ok (ttl, filteredParts) =>
        if cmd = "SET" then
          if filteredParts.length < 3 then
            ("ERROR SET requires key and value\n", c, authenticated)
          else
            let key := filteredParts.getD 1 ""
            let value := stringsJoin (filteredParts.drop 2) " "
            ("OK\n", c.Set key (.str value) ttl now, authenticated)
        else if cmd = "SETS" then
          if filteredParts.length < 3 then
            ("ERROR SETS requires key and at least one array element\n", c,
             authenticated)
          else
            let key := filteredParts.getD 1 ""
            let array := filteredParts.drop 2
            ("OK\n", c.Set key (.arr array) ttl now, authenticated)
        else if cmd = "SETX" then
          if filteredParts.length < 4 then
            ("ERROR SETX requires key and at least one key-value pair\n", c,
             authenticated)
          else if (filteredParts.length - 2) % 2 ≠ 0 then
            ("ERROR SETX requires even number of arguments for key-value pairs\n",
             c, authenticated)
          else
            let key := filteredParts.getD 1 ""
            let object := pairsToObj (filteredParts.drop 2) []
            ("OK\n", c.Set key (.obj object) ttl now, authenticated)
        else if cmd = "GET" then
          if filteredParts.length < 2 then
            ("ERROR GET requires key\n", c, authenticated)
          else
            let key := filteredParts.getD 1 ""
            match c.Get key now with
            | none => ("NULL\n", c, authenticated)
            | some (.str s) => (s ++ "\n", c, authenticated)
            | some (.arr v) =>
              ("[" ++ stringsJoin v " " ++ "]\n", c, authenticated)
            | some (.obj v) => (jsonMarshalObj v ++ "\n", c, authenticated)
        else if cmd = "DEL" then
          if filteredParts.length < 2 then
            ("ERROR DEL requires key\n", c, authenticated)
          else
            let key := filteredParts.getD 1 ""
            let (deleted, c) := c.Delete key
            if deleted then ("OK\n", c, authenticated)
            else ("NOT_FOUND\n", c, authenticated)
        else if cmd = "KEYS" then
          let pattern :=
            if filteredParts.length > 1 then filteredParts.getD 1 "" else "*"
          let keys := c.Keys pattern now
          if keys.length = 0 then ("EMPTY\n", c, authenticated)
          else (stringsJoin keys " " ++ "\n", c, authenticated)
        else if cmd = "FLUSHALL" then
          let (_, c) := c.FlushAll
          ("OK\n", c, authenticated)
        else ("ERROR unknown command\n", c, authenticated)

end SingleGoroutineServer

namespace PooledGoroutineServer

/-- `PooledGoroutineServer.handleAuth`
(`server.go`, pooled server section, `handleAuth`). -/
def handleAuth (authManager : Option AuthManager) (parts : List String)
    (authenticated : Bool) : String × Bool :=
  if parts.length ≠ 2 then ("ERROR AUTH requires password\n", authenticated)
  else
    let password := parts.getD 1 ""
    if authIsEnabled authManager then
      match (authManager.getD ⟨false, fun _ => .ok false⟩).verify password with
      | .error e => ("ERROR authentication error: " ++ e ++ "\n",
                     authenticated)
      | .ok true => ("OK authenticated\n", true)
      | .ok false => ("ERROR invalid password\n", authenticated)
    else ("OK no authentication required\n", true)

/-- `PooledGoroutineServer.parseTTLFromParts`
(`server.go`, pooled server section, `parseTTLFromParts`). -/
def parseTTLFromParts (parts : List String) :
    Except String (Int × List String) :=
  let cmd := toUpperGo (parts.getD 0 "")
  if cmd = "DEL" ∨ cmd = "GET" ∨ cmd = "KEYS" ∨ cmd = "FLUSHALL" then
    .ok (0, parts)
  else if parts.length ≥ 4 ∧ parts.getD 2 "" = "-t" then
    match ParseTTL (parts.getD 3 "") with
    | .error e => .error ("invalid ttl value: " ++ e)
    | .ok ttlValue =>
      .ok (ttlValue, [parts.getD 0 "", parts.getD 1 ""] ++ parts.drop 4)
  else .ok (0, parts)

/-- `PooledGoroutineServer.processCommandDirect`
(`server.go`, pooled server section, `processCommandDirect`): returns the reply together with the
updated cache and per-connection authenticated flag. -/
def processCommandDirect (authManager : Option AuthManager) (c : Cache)
    (authenticated : Bool) (command : String) (now : Int) :
    String × Cache × Bool :=
  let parts := ParseCommandWithQuotes command
  if parts.length < 1 then ("ERROR invalid command format\n", c, authenticated)
  else
    let cmd := toUpperGo (parts.getD 0 "")
    if cmd = "AUTH" then
      let (reply, auth) := handleAuth authManager parts authenticated
      (reply, c, auth)
    else if authIsEnabled authManager ∧ authenticated = false then
      ("ERROR authentication required\n", c, authenticated)
    else
      match parseTTLFromParts parts with
      | .error e => ("ERROR " ++ e ++ "\n", c, authenticated)
      | .ok (ttl, filteredParts) =>
        if cmd = "SET" then
          if filteredParts.length < 3 then
            ("ERROR SET requires key and value\n", c, authenticated)
          else
            let key := filteredParts.getD 1 ""
            let value := stringsJoin (filteredParts.drop 2) " "
            ("OK\n", c.Set key (.str value) ttl now, authenticated)
        else if cmd = "SETS" then
          if filteredParts.length < 3 then
            ("ERROR SETS requires key and at least one array element\n", c,
             authenticated)
          else
            let key := filteredParts.getD 1 ""
            let array := filteredParts.drop 2
            ("OK\n", c.Set key (.arr array) ttl now, authenticated)
        else if cmd = "SETX" then
          if filteredParts.length < 4 then
            ("ERROR SETX requires key and at least one key-value pair\n", c,
             authenticated)
          else if (filteredParts.length - 2) % 2 ≠ 0 then
            ("ERROR SETX requires even number of arguments for key-value pairs\n",
             c, authenticated)
          else
            let key := filteredParts.getD 1 ""
            let object := pairsToObj (filteredParts.drop 2) []
            ("OK\n", c.Set key (.obj object) ttl now, authenticated)
        else if cmd = "GET" then
          if filteredParts.length < 2 then
            ("ERROR GET requires key\n", c, authenticated)
          else
            let key := filteredParts.getD 1 ""
            match c.Get key now with
            | none => ("NULL\n", c, authenticated)
            | some (.str s) => (s ++ "\n", c, authenticated)
            | some (.arr v) =>
              ("[" ++ stringsJoin v " " ++ "]\n", c, authenticated)
            | some (.obj v) => (jsonMarshalObj v ++ "\n", c, authenticated)
        else if cmd = "DEL" then
          if filteredParts.length < 2 then
            ("ERROR DEL requires key\n", c, authenticated)
          else
            let key := filteredParts.getD 1 ""
            let (deleted, c) := c.Delete key
            if deleted then ("OK\n", c, authenticated)
            else ("NOT_FOUND\n", c, authenticated)
        else if cmd = "KEYS" then
          let pattern :=
            if filteredParts.length > 1 then filteredParts.getD 1 "" else "*"
          let keys := c.Keys pattern now
          if keys.length = 0 then ("EMPTY\n", c, authenticated)
          else (stringsJoin keys " " ++ "\n", c, authenticated)
        else if cmd = "FLUSHALL" then
          let (_, c) := c.FlushAll
          ("OK\n", c, authenticated)
        else ("ERROR unknown command\n", c, authenticated)

end PooledGoroutineServer

/-! ## The per-connection handler path (`server.go`) -/

/-- `SetCommand.Execute` (`server.go:167`): note the stored value is
`parts[2]` alone — remaining tokens are not joined. -/
def SetCommandExecute (c : Cache) (key : String) (parts : List String)
    (ttl now : Int) : String × Cache :=
  if parts.length < 3 then ("ERROR invalid SET command\n", c)
  else
    let value := parts.getD 2 ""
    ("OK\n", c.Set key (.str value) ttl now)

/-- `SetsCommand.Execute` (`server.go:179`). -/
def SetsCommandExecute (c : Cache) (key : String) (parts : List String)
    (ttl now : Int) : String × Cache :=
  if parts.length < 3 then ("ERROR invalid SETS command\n", c)
  else ("OK\n", c.Set key (.arr (parts.drop 2)) ttl now)

/-- `SetxCommand.Execute` (`server.go:191`). -/
def SetxCommandExecute (c : Cache) (key : String) (parts : List String)
    (ttl now : Int) : String × Cache :=
  if parts.length < 3 then ("ERROR invalid SETX command\n", c)
  else ("OK\n", c.Set key (.obj (pairsToObj (parts.drop 2) [])) ttl now)

/-- `SetnxCommand.Execute` (`server.go:210`). -/
def SetnxCommandExecute (c : Cache) (key : String) (parts : List String)
    (ttl now : Int) : String × Cache :=
  if parts.length < 3 then ("ERROR invalid SETNX command\n", c)
  else
    let (ok, c) := c.SetNX key (.str (parts.getD 2 "")) ttl now
    (if ok then "1\n" else "0\n", c)

/-- `SetsnxCommand.Execute` (`server.go:225`). -/
def SetsnxCommandExecute (c : Cache) (key : String) (parts : List String)
    (ttl now : Int) : String × Cache :=
  if parts.length < 3 then ("ERROR invalid SETSNX command\n", c)
  else
    let (ok, c) := c.SetNX key (.arr (parts.drop 2)) ttl now
    (if ok then "1\n" else "0\n", c)

/-- `SetxnxCommand.Execute` (`server.go:240`). -/
def SetxnxCommandExecute (c : Cache) (key : String) (parts : List String)
    (ttl now : Int) : String × Cache :=
  if parts.length < 3 then ("ERROR invalid SETXNX command\n", c)
  else
    let (ok, c) := c.SetNX key (.obj (pairsToObj (parts.drop 2) [])) ttl now
    (if ok then "1\n" else "0\n", c)

/-- `GetCommand.formatSingleValue` (`server.go:300`). -/
def formatSingleValue : Value → String
  | .str v => v ++ "\n"
  | .arr v => jsonMarshalArr v ++ "\n"
  | .obj v => jsonValueInd 0 (.obj v) ++ "\n"

/-- `GetCommand.Execute` (`server.go:262`): one key formats the bare
value, several keys return one JSON object of the hits; when every
requested key misses the reply is `NOT_FOUND`. -/
def GetCommandExecute (c : Cache) (parts : List String) (now : Int) :
    String :=
  if parts.length < 2 then "ERROR: GET requires at least one key\n"
  else
    let keys := parts.drop 1
    if keys.length = 1 then
      match c.Get (keys.getD 0 "") now with
      | none => "NOT_FOUND\n"
      | some value => formatSingleValue value
    else
      let results := c.GetMultiple keys now
      if results.length = 0 then "NOT_FOUND\n"
      else jsonMarshalIndentTop results ++ "\n"

/-- `DelCommand.Execute` (`server.go:356`). -/
def DelCommandExecute (c : Cache) (parts : List String) : String × Cache :=
  let keys := parts.drop 1
  if keys.length = 0 then ("ERROR missing key\n", c)
  else
    let (deletedCount, c) :=
      keys.foldl
        (fun (acc : Nat × Cache) k =>
          let (deleted, c) := acc.2.Delete k
          (if deleted then acc.1 + 1 else acc.1, c))
        (0, c)
    (toString deletedCount ++ "\n", c)

/-- The `(key, type)` projections that `KeysCommand.Execute` reads from
`Cache.GetAllKeys` (`cache.go:539`): the non-expired items in map order;
the remaining `GetAllKeys` fields (value, ttl, RFC3339 expiry text, size)
are never consumed by the server path modelled here. -/
def GetAllKeysProj (c : Cache) (now : Int) : List (String × String) :=
  (c.items.filter (fun p =>
    ¬ (p.2.expiration > 0 ∧ p.2.expiration < now))).map
    (fun p => (p.1, p.2.type))

/-- `KeysCommand.Execute` (`server.go:380`). -/
def KeysCommandExecute (c : Cache) (now : Int) : String :=
  let keys := GetAllKeysProj c now
  if keys.length = 0 then "No keys found\n"
  else
    String.join (keys.map (fun p => p.1 ++ " (" ++ p.2 ++ ")\n"))

/-- `FlushAllCommand.Execute` (`server.go:396`). -/
def FlushAllCommandExecute (c : Cache) : String × Cache :=
  let (count, c) := c.FlushAll
  ("OK " ++ toString count ++ " keys deleted\n", c)

/-- One iteration of `handleConnection`'s per-line loop
(`server.go:416-510`): tokenize, handle `AUTH`, enforce the per-connection
flag, strip the `-t` TTL flag, validate arity, and dispatch through the
`CreateCommandHandlers` table.  Returns the reply written for this line
with the updated cache and authenticated flag. -/
def handleConnectionLine (authManager : Option AuthManager) (c : Cache)
    (authenticated : Bool) (text : String) (now : Int) :
    String × Cache × Bool :=
  let parts := ParseCommandWithQuotes (String.mk (trimSpaceGo text.data))
  if parts.length < 1 then ("ERROR invalid command format\n", c, authenticated)
  else
    let cmd := toUpperGo (parts.getD 0 "")
    if cmd = "AUTH" then
      if parts.length ≠ 2 then
        ("ERROR AUTH requires password\n", c, authenticated)
      else
        let password := parts.getD 1 ""
        if authIsEnabled authManager then
          match (authManager.getD ⟨false, fun _ => .ok false⟩).verify
              password with
          | .error e =>
            ("ERROR authentication error: " ++ e ++ "\n", c, authenticated)
          | .ok true => ("OK authenticated\n", c, true)
          | .ok false => ("ERROR invalid password\n", c, authenticated)
        else ("OK no authentication required\n", c, true)
    else if authenticated = false then
      ("ERROR authentication required\n", c, authenticated)
    else
      let ttlParsed :=
        if cmd = "DEL" ∨ cmd = "GET" ∨ cmd = "KEYS" ∨ cmd = "FLUSHALL" then
          Except.ok ((0 : Int), parts)
        else if parts.length ≥ 4 ∧ parts.length > 2 ∧ parts.getD 2 "" = "-t"
            then
          match ParseTTL (parts.getD 3 "") with
          | .error e => .error ("ERROR invalid ttl value: " ++ e ++ "\n")
          | .ok ttlValue =>
            .ok (ttlValue, [parts.getD 0 "", parts.getD 1 ""] ++ parts.drop 4)
        else .ok (0, parts)
      match ttlParsed with
      | .error reply => (reply, c, authenticated)
      | .ok (ttl, filteredParts) =>
        if filteredParts.length < 1 then
          ("ERROR invalid command format\n", c, authenticated)
        else if filteredParts.length < 2 ∧ ¬ (cmd = "KEYS") ∧
            ¬ (cmd = "FLUSHALL") then
          ("ERROR invalid command format\n", c, authenticated)
        else
          let key :=
            if filteredParts.length ≥ 2 then filteredParts.getD 1 "" else ""
          if cmd = "SET" then
            let (r, c) := SetCommandExecute c key filteredParts ttl now
            (r, c, authenticated)
          else if cmd = "SETS" then
            let (r, c) := SetsCommandExecute c key filteredParts ttl now
            (r, c, authenticated)
          else if cmd = "SETX" then
            let (r, c) := SetxCommandExecute c key filteredParts ttl now
            (r, c, authenticated)
          else if cmd = "SETNX" then
            let (r, c) := SetnxCommandExecute c key filteredParts ttl now
            (r, c, authenticated)
          else if cmd = "SETSNX" then
            let (r, c) := SetsnxCommandExecute c key filteredParts ttl now
            (r, c, authenticated)
          else if cmd = "SETXNX" then
            let (r, c) := SetxnxCommandExecute c key filteredParts ttl now
            (r, c, authenticated)
          else if cmd = "GET" then
            (GetCommandExecute c filteredParts now, c, authenticated)
          else if cmd = "DEL" then
            let (r, c) := DelCommandExecute c filteredParts
            (r, c, authenticated)
          else if cmd = "KEYS" then
            (KeysCommandExecute c now, c, authenticated)
          else if cmd = "FLUSHALL" then
            let (r, c) := FlushAllCommandExecute c
            (r, c, authenticated)
          else ("ERROR unknown command\n", c, authenticated)

/-! ## The ACL command log (persistence manager) -/

/-- The `Command` record of the persistence manager: `Timestamp`, `Type`
(the verb), `Key`, `Value`, `TTL` (nanoseconds). -/
structure Command where
  timestamp : Int
  type : String
  key : String
  value : Value
  ttl : Int
deriving DecidableEq, Repr

/-- The `%d|%s|%s|%s|%d\n` line layout shared by `writeCommandToAcl` and
the compaction writer. -/
def formatAclLine (cmd : Command) : String :=
  toString cmd.timestamp ++ "|" ++ cmd.type ++ "|" ++ cmd.key ++ "|" ++
    goFormatValue cmd.value ++ "|" ++ toString cmd.ttl ++ "\n"

/-- `strings.Split(line, "|")`. -/
def splitOnCharGo (sep : Char) (cs : List Char) : List String :=
  (cs.foldr
    (fun c (acc : List (List Char)) =>
      if c = sep then [] :: acc
      else
        match acc with
        | g :: gs => (c :: g) :: gs
        | [] => [[c]])
    [[]]).map String.mk

/-- `strings.Fields` (split around whitespace runs); fuel-bounded by the
input length. -/
def fieldsGoF : Nat → List Char → List String
  | 0, _ => []
  | _ + 1, [] => []
  | fuel + 1, c :: cs =>
    if isSpaceGo c then fieldsGoF fuel cs
    else
      let w := (c :: cs).takeWhile (fun d => ¬ isSpaceGo d)
      String.mk w :: fieldsGoF fuel ((c :: cs).dropWhile (fun d => ¬ isSpaceGo d))

/-- `strings.Fields`. -/
def fieldsGo (cs : List Char) : List String := fieldsGoF cs.length cs

/-- `strings.Trim(s, "[]")`: strip every leading and trailing bracket. -/
def trimBrackets (cs : List Char) : List Char :=
  let inCut := fun (c : Char) => c = '[' ∨ c = ']'
  ((cs.dropWhile inCut).reverse.dropWhile inCut).reverse

/-- The value-literal decoder shared by `LoadAcl` and `compactAclFiles`:
`[…]` parses as an array of fields, `map[…]` (containing a colon) as an
object of colon-split pairs, anything else as a raw string. -/
def parseAclValue (valueStr : String) : Value :=
  if (valueStr.data.take 1 == ['[']) ∧
      (valueStr.data.reverse.take 1 == [']']) then
    let content := trimBrackets valueStr.data
    if content ≠ [] then .arr (fieldsGo content) else .arr []
  else if (valueStr.data.take 4 == "map[".data) ∧ valueStr.data.contains ':'
      then
    let content := (valueStr.data.drop 4)
    let content :=
      if content.reverse.take 1 == [']'] then content.dropLast else content
    let pairs := fieldsGo content
    .obj (pairs.foldl
      (fun obj pair =>
        if pair.data.contains ':' then
          let k := pair.data.takeWhile (fun c => ¬ c = ':')
          let v := (pair.data.dropWhile (fun c => ¬ c = ':')).drop 1
          insertAssocStr obj (String.mk k) (String.mk v)
        else obj)
      [])
  else .str valueStr

/-- Split an ACL line into its five pipe-separated fields; `none` when the
line is blank after trimming or the field count is wrong (such lines are
skipped with a warning). -/
def parseAclFields (line : String) : Option (List String) :=
  let line := String.mk (trimSpaceGo line.data)
  if line = "" then none
  else
    let parts := splitOnCharGo '|' line.data
    if parts.length ≠ 5 then none else some parts

/-- One line of `PersistenceManager.LoadAcl`'s replay loop (lines
636-694): parse the record and apply the mutation directly to the
keyspace — no log record is emitted on this path.  `SET/SETS/SETX`
install an item (heap push when `ttl > 0`); `DEL`, `DELS` and `DELX`
delete the key only when the stored item's `Type` is `"string"`,
`"array"`, `"object"` respectively; every other verb (including the
`SETNX` family) falls through the switch and does nothing. -/
def loadAclLine (c : Cache) (line : String) (now : Int) : Cache :=
  match parseAclFields line with
  | none => c
  | some parts =>
    match atoiGo (parts.getD 0 "") with
    | none => c
    | some _ =>
      match atoiGo (parts.getD 4 "") with
      | none => c
      | some ttl =>
        let cmdType := parts.getD 1 ""
        let key := parts.getD 2 ""
        let value := parseAclValue (parts.getD 3 "")
        if cmdType = "SET" ∨ cmdType = "SETS" ∨ cmdType = "SETX" then
          let dataType := dataTypeOf value
          let item : CacheItem := { value := value, key := key,
                                    type := dataType }
          let (item, heap) :=
            if ttl > 0 then
              let item := { item with expiration := now + ttl }
              ({ item with index := (c.expirationHeap.length : Int) },
                heapPushGo c.expirationHeap item)
            else (item, c.expirationHeap)
          { items := insertItem c.items key item, expirationHeap := heap }
        else if cmdType = "DEL" then
          match lookupItem c.items key with
          | some item =>
            if item.type = "string" then
              let heap :=
                if item.expiration > 0 ∧ item.index ≥ 0 then
                  heapRemoveGo c.expirationHeap item.index.toNat
                else c.expirationHeap
              { items := removeItem c.items key, expirationHeap := heap }
            else c
          | none => c
        else if cmdType = "DELS" then
          match lookupItem c.items key with
          | some item =>
            if item.type = "array" then
              let heap :=
                if item.expiration > 0 ∧ item.index ≥ 0 then
                  heapRemoveGo c.expirationHeap item.index.toNat
                else c.expirationHeap
              { items := removeItem c.items key, expirationHeap := heap }
            else c
          | none => c
        else if cmdType = "DELX" then
          match lookupItem c.items key with
          | some item =>
            if item.type = "object" then
              let heap :=
                if item.expiration > 0 ∧ item.index ≥ 0 then
                  heapRemoveGo c.expirationHeap item.index.toNat
                else c.expirationHeap
              { items := removeItem c.items key, expirationHeap := heap }
            else c
          | none => c
        else c

/-- `PersistenceManager.LoadAcl`: replay every line in order. -/
def loadAcl (c : Cache) (lines : List String) (now : Int) : Cache :=
  lines.foldl (fun c line => loadAclLine c line now) c

/-! ## ACL compaction (`compactAclFiles`) -/

/-- The delete verbs `CMD_DEL`, `CMD_DELS`, `CMD_DELX`. -/
def isDelType (t : String) : Bool :=
  t = "DEL" ∨ t = "DELS" ∨ t = "DELX"

/-- Go map assignment `commands[key] = cmd`. -/
def insertAssocCmd (m : List (String × Command)) (k : String)
    (cmd : Command) : List (String × Command) :=
  match m with
  | [] => [(k, cmd)]
  | (k', v') :: rest =>
    if k' = k then (k, cmd) :: rest
    else (k', v') :: insertAssocCmd rest k cmd

/-- Go map lookup `commands[key]`. -/
def lookupAssocCmd (m : List (String × Command)) (k : String) :
    Option Command :=
  match m.find? (fun p => p.1 = k) with
  | some p => some p.2
  | none => none

/-- The per-record merge decision of `compactAclFiles` (lines 308-322):
delete verbs always override, records arriving after a delete are
ignored, and among non-delete records the larger timestamp wins. -/
def compactStep (commands : List (String × Command)) (cmd : Command) :
    List (String × Command) :=
  match lookupAssocCmd commands cmd.key with
  | some existingCmd =>
    if isDelType cmd.type then insertAssocCmd commands cmd.key cmd
    else if isDelType existingCmd.type then commands
    else if cmd.timestamp > existingCmd.timestamp then
      insertAssocCmd commands cmd.key cmd
    else commands
  | none => insertAssocCmd commands cmd.key cmd

/-- The compaction fold over every parsed record, in file/line order. -/
def compactFold (cmds : List Command) : List (String × Command) :=
  cmds.foldl compactStep []

/-! ## The ATD binary snapshot (writer `SaveAtd`, reader `LoadAtd`)

The byte stream (inside the gzip container, which is a faithful
transport) is modelled as a `List Nat` of byte values; Go byte strings
are rendered through `Char.toNat`. -/

/-- Big-endian `uint16` (with Go's integer-cast truncation). -/
def encodeU16 (n : Nat) : List Nat := [n / 256 % 256, n % 256]

/-- Big-endian `uint32`. -/
def encodeU32 (n : Nat) : List Nat :=
  encodeU16 (n / 65536 % 65536) ++ encodeU16 (n % 65536)

/-- Big-endian two's-complement `int64`. -/
def encodeI64 (n : Int) : List Nat :=
  let u := (n % 18446744073709551616).toNat
  encodeU32 (u / 4294967296) ++ encodeU32 (u % 4294967296)

/-- Read a big-endian `uint16`. -/
def decodeU16 : List Nat → Option (Nat × List Nat)
  | b1 :: b0 :: rest => some (b1 * 256 + b0, rest)
  | _ => none

/-- Read a big-endian `uint32`. -/
def decodeU32 (bs : List Nat) : Option (Nat × List Nat) :=
  match decodeU16 bs with
  | none => none
  | some (hi, bs) =>
    match decodeU16 bs with
    | none => none
    | some (lo, bs) => some (hi * 65536 + lo, bs)

/-- Read a big-endian two's-complement `int64`. -/
def decodeI64 (bs : List Nat) : Option (Int × List Nat) :=
  match decodeU32 bs with
  | none => none
  | some (hi, bs) =>
    match decodeU32 bs with
    | none => none
    | some (lo, bs) =>
      let u := hi * 4294967296 + lo
      some (if u ≥ 9223372036854775808 then (u : Int) - 18446744073709551616
            else (u : Int), bs)

/-- The bytes of a Go string. -/
def strBytes (s : String) : List Nat := s.data.map Char.toNat

/-- `io.ReadFull` into an `n`-byte buffer. -/
def readN (n : Nat) (bs : List Nat) : Option (List Nat × List Nat) :=
  if bs.length < n then none else some (bs.take n, bs.drop n)

/-- Reassemble a Go string from bytes. -/
def strOfBytes (bs : List Nat) : String := String.mk (bs.map Char.ofNat)

/-- `writeAtdValue` (type tag `0x01/0x02/0x03`, then the length-prefixed
payload). -/
def encodeAtdValue : Value → List Nat
  | .str s => 1 :: (encodeU32 s.length ++ strBytes s)
  | .arr xs =>
    2 :: (encodeU16 xs.length ++
      xs.flatMap (fun s => encodeU16 s.length ++ strBytes s))
  | .obj es =>
    3 :: (encodeU16 es.length ++
      es.flatMap (fun p =>
        encodeU16 p.1.length ++ strBytes p.1 ++
        encodeU16 p.2.length ++ strBytes p.2))

/-- The element loop of `readAtdValue`'s array case. -/
def decodeAtdElems : Nat → List Nat → Option (List String × List Nat)
  | 0, bs => some ([], bs)
  | count + 1, bs =>
    match decodeU16 bs with
    | none => none
    | some (strLen, bs) =>
      match readN strLen bs with
      | none => none
      | some (chars, bs) =>
        match decodeAtdElems count bs with
        | none => none
        | some (xs, bs) => some (strOfBytes chars :: xs, bs)

/-- The entry loop of `readAtdValue`'s object case; entries go through the
Go map assignment `object[k] = v`. -/
def decodeAtdEntries : Nat → List (String × String) → List Nat →
    Option (List (String × String) × List Nat)
  | 0, object, bs => some (object, bs)
  | count + 1, object, bs =>
    match decodeU16 bs with
    | none => none
    | some (keyLen, bs) =>
      match readN keyLen bs with
      | none => none
      | some (keyChars, bs) =>
        match decodeU16 bs with
        | none => none
        | some (valueLen, bs) =>
          match readN valueLen bs with
          | none => none
          | some (valueChars, bs) =>
            decodeAtdEntries count
              (insertAssocStr object (strOfBytes keyChars)
                (strOfBytes valueChars)) bs

/-- `readAtdValue`. -/
def decodeAtdValue (bs : List Nat) : Option (Value × List Nat) :=
  match bs with
  | [] => none
  | valueType :: bs =>
    if valueType = 1 then
      match decodeU32 bs with
      | none => none
      | some (length, bs) =>
        match readN length bs with
        | none => none
        | some (chars, bs) => some (.str (strOfBytes chars), bs)
    else if valueType = 2 then
      match decodeU16 bs with
      | none => none
      | some (length, bs) =>
        match decodeAtdElems length bs with
        | none => none
        | some (xs, bs) => some (.arr xs, bs)
    else if valueType = 3 then
      match decodeU16 bs with
      | none => none
      | some (length, bs) =>
        match decodeAtdEntries length [] bs with
        | none => none
        | some (es, bs) => some (.obj es, bs)
    else none

/-- `writeAtdItem`: record tag `0x01`, length-prefixed key, value block,
8-byte expiration. -/
def encodeAtdItem (key : String) (item : CacheItem) : List Nat :=
  1 :: (encodeU16 key.length ++ strBytes key ++
    encodeAtdValue item.value ++ encodeI64 item.expiration)

/-- `readAtdItem`: the returned item has only `Value`, `Expiration` and
`key` populated (the `Type` field is left at its zero value `""`); items
already expired at read time come back as `none`. -/
def readAtdItem (bs : List Nat) (now : Int) :
    Option (String × Option CacheItem × List Nat) :=
  match decodeU16 bs with
  | none => none
  | some (keyLen, bs) =>
    match readN keyLen bs with
    | none => none
    | some (keyChars, bs) =>
      let key := strOfBytes keyChars
      match decodeAtdValue bs with
      | none => none
      | some (value, bs) =>
        match decodeI64 bs with
        | none => none
        | some (expiration, bs) =>
          if expiration > 0 ∧ now > expiration then some (key, none, bs)
          else
            some (key,
              some { value := value, expiration := expiration, index := 0,
                     key := key, type := "" }, bs)

/-- The `ANTC` magic constant. -/
def MAGIC_HEADER : Nat := 0x414E5443

/-- `writeAtdHeader`: magic, version byte `0x01`, 8-byte Unix-seconds
creation timestamp. -/
def writeAtdHeader (nowSec : Int) : List Nat :=
  encodeU32 MAGIC_HEADER ++ [1] ++ encodeI64 nowSec

/-- `readAtdHeader`: reject a wrong magic number or an unsupported
version, then skip the timestamp. -/
def readAtdHeader (bs : List Nat) : Option (List Nat) :=
  match decodeU32 bs with
  | none => none
  | some (magic, bs) =>
    if magic ≠ MAGIC_HEADER then none
    else
      match bs with
      | [] => none
      | version :: bs =>
        if version ≠ 1 then none
        else
          match decodeI64 bs with
          | none => none
          | some (_, bs) => some bs

/-- `SaveAtd`: header, one record per item that is not expired at write
time (`Expiration > 0 && now > Expiration` is skipped), end marker
`0xFF`. -/
def saveAtd (c : Cache) (nowSec now : Int) : List Nat :=
  writeAtdHeader nowSec ++
    (c.items.filter (fun p =>
      ¬ (p.2.expiration > 0 ∧ now > p.2.expiration))).flatMap
      (fun p => encodeAtdItem p.1 p.2) ++
    [0xFF]

/-- The record loop of `LoadAtd`: `0x01` loads an item (map assignment
plus a heap push when `Expiration > 0`), `0xFF` returns, end-of-stream
returns, any other tag is an error.  `fuel` bounds the iteration count;
each record consumes at least one byte. -/
def loadAtdRecords : Nat → Cache → Int → List Nat → Option Cache
  | 0, _, _, _ => none
  | _ + 1, c, _, [] => some c
  | fuel + 1, c, now, recordType :: bs =>
    if recordType = 1 then
      match readAtdItem bs now with
      | none => none
      | some (key, maybeItem, bs) =>
        match maybeItem with
        | none => loadAtdRecords fuel c now bs
        | some item =>
          let heap :=
            if item.expiration > 0 then heapPushGo c.expirationHeap item
            else c.expirationHeap
          loadAtdRecords fuel
            { items := insertItem c.items key item, expirationHeap := heap }
            now bs
    else if recordType = 0xFF then some c
    else none

/-- `LoadAtd` on a clean keyspace: validate the header, clear the
keyspace, then replay the records.  (After a successful header check the
Go reader mutates the live cache in place; only the header-failure and
full-success cases are exercised by the theorems below, and on those the
in-place mutation and this functional form agree.) -/
def loadAtd (bs : List Nat) (now : Int) : Option Cache :=
  match readAtdHeader bs with
  | none => none
  | some bs => loadAtdRecords (bs.length + 1) Cache.New now bs

/-- `NewWithPersistence` (`cache.go:126`): start from `New()`, attempt
`LoadAtd` — a failure is only printed ("Loading data does not affect
startup") and leaves the keyspace as it was — then replay the ACL.  The
function always returns a serving cache; startup never aborts here. -/
def NewWithPersistence (atdBytes : List Nat) (aclLines : List String)
    (now : Int) : Cache :=
  let cache := Cache.New
  let cache :=
    match loadAtd atdBytes now with
    | some loaded => loaded
    | none => cache
  loadAcl cache aclLines now

/-! ## Size bounds for the ATD length fields -/

/-- A value fits its ATD length fields: `uint32` for string bytes,
`uint16` for array/object counts, element lengths and entry key/value
lengths; object keys are unique (they come from a Go map). -/
def wfValue : Value → Bool
  | .str s => decide (s.length < 4294967296)
  | .arr xs =>
    decide (xs.length < 65536) &&
      xs.all (fun x => decide (x.length < 65536))
  | .obj es =>
    decide (es.length < 65536) &&
      decide ((es.map Prod.fst).Nodup) &&
      es.all (fun p =>
        decide (p.1.length < 65536) && decide (p.2.length < 65536))

/-- An item fits the ATD record layout: `uint16` key length, a
well-formed value, and an `int64` expiration. -/
def wfItem (k : String) (it : CacheItem) : Bool :=
  decide (k.length < 65536) && wfValue it.value &&
    decide (-9223372036854775808 ≤ it.expiration) &&
    decide (it.expiration < 9223372036854775808)

/-- A keyspace whose keys are unique (it is a Go map) and whose items all
fit the ATD record layout. -/
def wfCache (c : Cache) : Bool :=
  decide ((c.items.map Prod.fst).Nodup) &&
    c.items.all (fun p => wfItem p.1 p.2)

/-- The item `readAtdItem` constructs: same value and expiration, `index`
and `Type` left at their zero values (`readAtdItem` never sets
`Type`). -/
def loadedItem (k : String) (it : CacheItem) : CacheItem :=
  { value := it.value, expiration := it.expiration, index := 0,
    key := k, type := "" }

/-- The loaded image of one saved item. -/
def loadedImage (p : String × CacheItem) : String × CacheItem :=
  (p.1, loadedItem p.1 p.2)

/-- The items `SaveAtd` writes: those not expired at write time. -/
def liveItems (c : Cache) (now : Int) : List (String × CacheItem) :=
  c.items.filter (fun p => ¬ (p.2.expiration > 0 ∧ now > p.2.expiration))

/-- The single-key projection of `compactStep`: how the survivor for one
key evolves as one more record for that key is folded in. -/
def compactStepOpt (acc : Option Command) (cmd : Command) :
    Option Command :=
  match acc with
  | some existingCmd =>
    if isDelType cmd.type then some cmd
    else if isDelType existingCmd.type then some existingCmd
    else if cmd.timestamp > existingCmd.timestamp then some cmd
    else some existingCmd
  | none => some cmd

/-! ## Concrete states used by the claim theorems -/

/-- A keyspace holding one never-expiring string item under `"user"`. -/
def c2State : Cache :=
  { items := [("user", { value := .str "alice", expiration := 0, index := 0,
                         key := "user", type := "string" })],
    expirationHeap := [] }

/-- One string item with `expires_at = 100`. -/
def c5Item : CacheItem :=
  { value := .str "old", expiration := 100, index := 0, key := "k",
    type := "string" }

/-- A keyspace holding `c5Item` (with its matching heap entry). -/
def c5State : Cache :=
  { items := [("k", c5Item)], expirationHeap := [c5Item] }

/-- A snapshot byte stream whose magic number is wrong (`ANTD` instead of
`ANTC`). -/
def c7BadMagic : List Nat :=
  encodeU32 0x414E5444 ++ [1] ++ encodeI64 0 ++ [0xFF]

/-- A snapshot byte stream with the right magic but an unknown version
byte `0x02`. -/
def c7BadVersion : List Nat :=
  encodeU32 MAGIC_HEADER ++ [2] ++ encodeI64 0 ++ [0xFF]

/-- A keyspace holding one string item tagged `"string"`. -/
def c3State : Cache :=
  { items := [("k", { value := .str "v", expiration := 0, index := 0,
                      key := "k", type := "string" })],
    expirationHeap := [] }

/-- A keyspace with a live string, a live array, a live object and an
already-expired item. -/
def c3WitState : Cache :=
  { items :=
      [("s", { value := .str "v1", expiration := 0, index := 0, key := "s",
               type := "string" }),
       ("gone", { value := .str "old", expiration := 3, index := 0,
                  key := "gone", type := "string" }),
       ("a", { value := .arr ["x", "y"], expiration := 50, index := 0,
               key := "a", type := "array" }),
       ("o", { value := .obj [("f", "1"), ("g", "2")], expiration := 0,
               index := 1, key := "o", type := "object" })],
    expirationHeap := [] }

/-- Records for one key in which a delete sits between two sets with
larger timestamps, plus a record for another key. -/
def c8Records : List Command :=
  [{ timestamp := 5, type := "SET", key := "k", value := .str "a", ttl := 0 },
   { timestamp := 1, type := "DEL", key := "k", value := .str "", ttl := 0 },
   { timestamp := 9, type := "SET", key := "k", value := .str "b", ttl := 0 },
   { timestamp := 3, type := "SETS", key := "k2", value := .arr ["x"],
     ttl := 0 }]

/-- A keyspace holding only an item that expired at `t = 3`. -/
def c9State : Cache :=
  { items := [("a", { value := .str "stale", expiration := 3, index := 0,
                      key := "a", type := "string" })],
    expirationHeap := [] }

/-! ## Claim C1 — stale heap entry left behind by `Cache.Set` -/

/-- The state after `Set "k" v1 (ttl 5)` at `now = 0` and then
`Set "k" v2 (ttl 0)` at `now = 0`. -/
def c1State : Cache :=
  ((Cache.New.Set "k" (.str "v1") 5 0).Set "k" (.str "v2") 0 0)

/-- C1.  For every call to `Set(key, value, ttl)` where the keyspace
already holds an item under `key` whose `expires_at > 0`, the claim says
the prior item's heap entry is removed before the new item is installed so
that invariant I1 holds.  The code (`cache.go:167-211`) never removes the
prior entry: after overwriting a TTL'd key with a TTL-less value the heap
still holds the stale entry for the old item while the items map holds the
new one, and `Cleanup` then deletes the *live* replacement item when the
stale entry expires.  This theorem evaluates the code at that failing
input. -/
theorem c1_set_leaves_stale_heap_entry :
    c1State.expirationHeap.length = 1 ∧
    (∀ e ∈ c1State.expirationHeap,
       lookupItem c1State.items e.key ≠ some e) ∧
    lookupItem c1State.items "k" =
      some { value := .str "v2", expiration := 0, index := 0,
             key := "k", type := "string" } ∧
    lookupItem (c1State.Cleanup 10).items "k" = none := by
  decide

/-! ## Integer codec round-trip lemmas -/

theorem decodeU16_encodeU16 (n : Nat) (rest : List Nat) (h : n < 65536) :
    decodeU16 (encodeU16 n ++ rest) = some (n, rest) := by
  simp only [encodeU16, List.cons_append, List.nil_append, decodeU16,
    Option.some.injEq, Prod.mk.injEq, and_true]
  omega

theorem decodeU32_encodeU32 (n : Nat) (rest : List Nat)
    (h : n < 4294967296) :
    decodeU32 (encodeU32 n ++ rest) = some (n, rest) := by
  have h1 : n / 65536 % 65536 < 65536 := Nat.mod_lt _ (by norm_num)
  have h2 : n % 65536 < 65536 := Nat.mod_lt _ (by norm_num)
  simp only [encodeU32, List.append_assoc, decodeU32,
    decodeU16_encodeU16 _ _ h1, decodeU16_encodeU16 _ _ h2,
    Option.some.injEq, Prod.mk.injEq, and_true]
  omega

theorem decodeI64_encodeI64 (x : Int) (rest : List Nat)
    (h1 : -9223372036854775808 ≤ x) (h2 : x < 9223372036854775808) :
    decodeI64 (encodeI64 x ++ rest) = some (x, rest) := by
  have hm : (0 : Int) < 18446744073709551616 := by norm_num
  have hnn : 0 ≤ x % 18446744073709551616 := Int.emod_nonneg x (by norm_num)
  have hlt : x % 18446744073709551616 < 18446744073709551616 :=
    Int.emod_lt_of_pos x hm
  have hu : ((x % 18446744073709551616).toNat : Int) =
      x % 18446744073709551616 := Int.toNat_of_nonneg hnn
  have hub : (x % 18446744073709551616).toNat < 18446744073709551616 := by
    omega
  have hq : (x % 18446744073709551616).toNat / 4294967296 < 4294967296 := by
    omega
  have hr : (x % 18446744073709551616).toNat % 4294967296 < 4294967296 :=
    Nat.mod_lt _ (by norm_num)
  have hid : (x % 18446744073709551616).toNat / 4294967296 * 4294967296 +
      (x % 18446744073709551616).toNat % 4294967296 =
      (x % 18446744073709551616).toNat := by omega
  have hx : x % 18446744073709551616 =
      if 0 ≤ x then x else x + 18446744073709551616 := by
    rcases le_or_lt 0 x with hx0 | hx0
    · rw [if_pos hx0, Int.emod_eq_of_lt hx0 (by omega)]
    · rw [if_neg (by omega)]
      have hdiv : x + 18446744073709551616 =
          x % 18446744073709551616 + 18446744073709551616 *
            (x / 18446744073709551616 + 1) := by
        rw [Int.mul_add, Int.mul_one, ← Int.add_assoc,
          Int.emod_add_ediv x 18446744073709551616]
      omega
  simp only [encodeI64, List.append_assoc, decodeI64,
    decodeU32_encodeU32 _ _ hq, decodeU32_encodeU32 _ _ hr,
    Option.some.injEq, Prod.mk.injEq, and_true]
  split <;> omega

/-- `decodeI64` consumes the 8 bytes of any `encodeI64` output, whatever
the value (used for the skipped header timestamp). -/
theorem decodeI64_encodeI64_consumes (x : Int) (rest : List Nat) :
    ∃ v, decodeI64 (encodeI64 x ++ rest) = some (v, rest) :=
  ⟨_, rfl⟩

/-! ## Claim C4 — the two dispatch strategies agree -/

/-- C4.  For every command line, cache state, per-connection
authentication state and authentication probe, the single-goroutine
dispatcher and the bounded-pool dispatcher return exactly the same reply
string, the same resulting keyspace, and the same authenticated flag:
`PooledGoroutineServer.processCommandDirect` (with its own `handleAuth`
and `parseTTLFromParts`) is definitionally the same function as
`SingleGoroutineServer.processCommandDirect`. -/
theorem c4_dispatch_strategies_interchangeable (authManager :
    Option AuthManager) (c : Cache) (authenticated : Bool)
    (command : String) (now : Int) :
    PooledGoroutineServer.processCommandDirect authManager c authenticated
      command now =
    SingleGoroutineServer.processCommandDirect authManager c authenticated
      command now := rfl

/-! ## Claim C2 — ACL replay of the NX and legacy delete verbs -/

/-- C2.  The claim says startup replay applies a mutation for every verb
in `SET, SETS, SETX, SETNX, SETSNX, SETXNX, DEL, DELS, DELX`, with
`SETNX/SETSNX/SETXNX` records setting the key and `DELS`/`DELX` deleting
unconditionally.  The code disagrees on both counts, evaluated here:
a `SETNX` (or `SETSNX`/`SETXNX`) record matches no case of `LoadAcl`'s
switch and leaves the keyspace untouched, and a `DELS` or `DELX` record
(and even a plain `DEL`) deletes only when the stored item's `Type`
matches the verb-specific type, so none of them removes the string-typed
item `"user"`. -/
theorem c2_loadacl_drops_setnx_and_type_checks_deletes :
    loadAclLine Cache.New "100|SETNX|user|alice|0" 0 = Cache.New ∧
    loadAclLine Cache.New "100|SETSNX|user|[a b]|0" 0 = Cache.New ∧
    loadAclLine Cache.New "100|SETXNX|user|map[k:v]|0" 0 = Cache.New ∧
    loadAclLine c2State "100|DELS|user||0" 0 = c2State ∧
    loadAclLine c2State "100|DELX|user||0" 0 = c2State ∧
    loadAclLine c2State "100|DEL|user||0" 0 =
      { items := [], expirationHeap := [] } := by
  decide

/-! ## Claim C5 — the `SetNX` expiry boundary -/

/-- C5 counterexample.  The claim says an existing item with
`expires_at > 0` and `expires_at ≤ now` counts as absent, so at
`expires_at = now = 100` the call must return `true`.  The code tests
`now > item.Expiration` strictly and returns `false` there. -/
theorem c5_counterexample :
    c5Item.expiration > 0 ∧ c5Item.expiration ≤ 100 ∧
    (c5State.SetNX "k" (.str "new") 0 100).1 = false := by
  decide

/-- C5 amended.  `SetNX` returns `true` iff the key is absent or the
existing item has `expires_at > 0` and `expires_at < now` (strictly —
an item whose `expires_at` equals the current instant still refuses);
when it returns `false` the keyspace is completely unchanged.  The
check-then-insert pair is a single Lean function here, mirroring the one
exclusive critical section of the Go code. -/
theorem c5_setnx_strict_expiry (c : Cache) (key : String) (v : Value)
    (ttl now : Int) :
    ((c.SetNX key v ttl now).1 = true ↔
      (lookupItem c.items key = none ∨
        ∃ item, lookupItem c.items key = some item ∧
          item.expiration > 0 ∧ item.expiration < now)) ∧
    ((c.SetNX key v ttl now).1 = false → (c.SetNX key v ttl now).2 = c) := by
  unfold Cache.SetNX
  cases h : lookupItem c.items key with
  | none => simp
  | some item =>
    by_cases hd : item.expiration > 0 ∧ now > item.expiration
    · have hb : decide (item.expiration > 0 ∧ now > item.expiration) =
          true := decide_eq_true hd
      simp only [hb, if_true, true_iff, Bool.true_eq_false, false_implies,
        and_true, Option.some.injEq, reduceCtorEq, false_or]
      exact ⟨item, rfl, hd.1, hd.2⟩
    · have hb : decide (item.expiration > 0 ∧ now > item.expiration) =
          false := decide_eq_false hd
      simp only [hb, Bool.false_eq_true, if_false, false_iff, not_or,
        true_implies, and_true, Option.some.injEq, reduceCtorEq,
        not_false_eq_true, true_and, not_exists, not_and]
      rintro it rfl h1
      intro h2
      exact hd ⟨h1, h2⟩

/-- C5 witness: at `expires_at = 100 < now = 101` the amended condition
holds and the call succeeds; at `now = 100` it refuses and the state is
unchanged. -/
theorem c5_witness :
    (c5State.SetNX "k" (.str "new") 0 101).1 = true ∧
    (c5State.SetNX "k" (.str "new") 0 100).2 = c5State := by
  constructor
  · exact (c5_setnx_strict_expiry c5State "k" (.str "new") 0 101).1.mpr
      (Or.inr ⟨c5Item, by decide, by decide, by decide⟩)
  · exact (c5_setnx_strict_expiry c5State "k" (.str "new") 0 100).2
      (by decide)

/-! ## Claim C6 — what the stored SET value is on each dispatch path -/

/-- C6.  The claim (and the spec's scenario 1) says `SET greet hello
world` stores the string `"hello world"` (tokens joined with one space)
on every path, so `GET greet` returns `hello world`.  The direct
dispatchers do join; but the per-connection handler path
(`handleConnection` → `SetCommand.Execute`, `server.go:167-175`) stores
only `parts[2]`: after `SET greet hello world` it holds `"hello"` and
`GET greet` answers `hello`, dropping `world`.  Evaluated here on both
paths at the failing input. -/
theorem c6_handlers_set_drops_tokens :
    (handleConnectionLine none Cache.New true "SET greet hello world" 0).1 =
      "OK\n" ∧
    ((handleConnectionLine none Cache.New true "SET greet hello world"
        0).2.1.Get "greet" 0) = some (.str "hello") ∧
    (handleConnectionLine none
        (handleConnectionLine none Cache.New true "SET greet hello world"
          0).2.1 true "GET greet" 0).1 = "hello\n" ∧
    ((SingleGoroutineServer.processCommandDirect none Cache.New true
        "SET greet hello world" 0).2.1.Get "greet" 0) =
      some (.str "hello world") := by
  decide

/-! ## Claim C7 — startup behaviour on a bad snapshot header -/

/-- C7 counterexample.  The claim says a snapshot whose magic or version
does not match aborts startup.  Evaluated on a wrong-magic stream and on
an unknown-version stream: the load is indeed rejected (`LoadAtd`
errors), but `NewWithPersistence` comes up anyway, serving an empty
keyspace. -/
theorem c7_counterexample :
    loadAtd c7BadMagic 0 = none ∧
    NewWithPersistence c7BadMagic [] 0 = Cache.New ∧
    loadAtd c7BadVersion 0 = none ∧
    NewWithPersistence c7BadVersion [] 0 = Cache.New := by
  decide

/-- C7 amended.  If the snapshot header carries a wrong magic number or
an unknown version byte, the load is rejected before the keyspace is
touched (`LoadAtd` returns an error), but startup does **not** abort:
`NewWithPersistence` prints the error and proceeds, so the process comes
up serving whatever the ACL replay alone reconstructs. -/
theorem c7_header_mismatch_load_rejected_startup_continues (magic : Nat)
    (version : Nat) (ts : Int) (body : List Nat) (lines : List String)
    (now : Int) (hm : magic < 4294967296)
    (h : magic ≠ MAGIC_HEADER ∨ version ≠ 1) :
    loadAtd (encodeU32 magic ++ version :: (encodeI64 ts ++ body)) now =
      none ∧
    NewWithPersistence (encodeU32 magic ++ version :: (encodeI64 ts ++
      body)) lines now = loadAcl Cache.New lines now := by
  have hdr : readAtdHeader (encodeU32 magic ++ version :: (encodeI64 ts ++
      body)) = none := by
    rw [readAtdHeader, decodeU32_encodeU32 _ _ hm]
    rcases h with h | h
    · simp [h]
    · obtain ⟨v, hv⟩ := decodeI64_encodeI64_consumes ts body
      simp [h, hv]
  have hload : loadAtd (encodeU32 magic ++ version :: (encodeI64 ts ++
      body)) now = none := by
    rw [loadAtd, hdr]
  refine ⟨hload, ?_⟩
  rw [NewWithPersistence, hload]

/-- C7 witness: the amended theorem applied to the concrete wrong-magic
stream with an empty log. -/
theorem c7_witness :
    loadAtd (encodeU32 0x414E5444 ++ 1 :: (encodeI64 0 ++ [0xFF])) 0 =
      none ∧
    NewWithPersistence (encodeU32 0x414E5444 ++ 1 :: (encodeI64 0 ++
      [0xFF])) [] 0 = loadAcl Cache.New [] 0 := by
  exact c7_header_mismatch_load_rejected_startup_continues 0x414E5444 1 0
    [0xFF] [] 0 (by norm_num) (Or.inl (by decide))

/-! ## Claim C9 — multi-key GET with no hits -/

/-- `GetMultiple` accumulates nothing when every requested key is missing
or expired. -/
theorem getMultiple_nil_of_all_missing (c : Cache) (keys : List String)
    (now : Int)
    (h : ∀ k ∈ keys, lookupItem c.items k = none ∨
      ∃ item, lookupItem c.items k = some item ∧
        item.expiration > 0 ∧ now > item.expiration) :
    c.GetMultiple keys now = [] := by
  unfold Cache.GetMultiple
  induction keys with
  | nil => rfl
  | cons k ks ih =>
    have hk := h k (List.mem_cons_self k ks)
    have hstep : ∀ result : List (String × Value),
        result = [] →
        (match lookupItem c.items k with
          | some item =>
            if item.expiration > 0 ∧ now > item.expiration then result
            else
              match result.find? (fun p => p.1 = k) with
              | some _ => result.map (fun p =>
                  if p.1 = k then (k, DecompressValue item.value) else p)
              | none => result ++ [(k, DecompressValue item.value)]
          | none => result) = [] := by
      intro result hres
      rcases hk with hk | ⟨item, hit, h1, h2⟩
      · rw [hk, hres]
      · rw [hit]
        simp [hres, h1, h2]
    simp only [List.foldl_cons]
    rw [hstep [] rfl]
    exact ih (fun k hk => h k (List.mem_cons_of_mem _ hk))

/-- C9.  For every multi-key `GET` (two or more keys) in which every
requested key is missing or expired, `GetCommand.Execute` (the
per-connection dispatcher's GET handler) replies with the single line
`NOT_FOUND` rather than an empty JSON object. -/
theorem c9_multi_get_all_missing_replies_not_found (c : Cache)
    (keys : List String) (now : Int) (h2 : 2 ≤ keys.length)
    (hmiss : ∀ k ∈ keys, lookupItem c.items k = none ∨
      ∃ item, lookupItem c.items k = some item ∧
        item.expiration > 0 ∧ now > item.expiration) :
    GetCommandExecute c ("GET" :: keys) now = "NOT_FOUND\n" := by
  have hg : c.GetMultiple keys now = [] :=
    getMultiple_nil_of_all_missing c keys now hmiss
  unfold GetCommandExecute
  rw [if_neg (by simp only [List.length_cons]; omega)]
  simp only [List.drop_succ_cons, List.drop_zero, hg, List.length_nil]
  rw [if_neg (by omega)]
  simp

/-- C9 witness: keys `["a", "b"]` against a keyspace in which `"a"`
expired at `t = 3` and `"b"` never existed, queried at `t = 10`. -/
theorem c9_witness :
    GetCommandExecute c9State ["GET", "a", "b"] 10 = "NOT_FOUND\n" :=
  c9_multi_get_all_missing_replies_not_found c9State ["a", "b"] 10
    (by decide) (by decide)

/-! ## Claim C10 — unterminated quotes keep the accumulated token -/

/-- The loop ignores fuel on an exhausted input. -/
theorem parseLoopF_nil (fuel : Nat) (st : ParseState) :
    parseLoopF fuel st [] = st := by
  cases fuel <;> rfl

/-- One in-quote literal step of the loop. -/
theorem parseLoopF_inq_lit (fuel : Nat) (st : ParseState) (c : Char)
    (cs : List Char) (hq : st.inQuotes = true) (hcq : ¬ c = st.quoteChar)
    (hcb : ¬ c = '\\') :
    parseLoopF (fuel + 1) st (c :: cs) =
      parseLoopF fuel { st with current := st.current ++ [c] } cs := by
  show (if st.inQuotes = false then _ else _) = _
  rw [if_neg (show ¬ st.inQuotes = false by simp [hq]), if_neg hcq,
    if_neg hcb]

/-- One in-quote escape step of the loop. -/
theorem parseLoopF_inq_esc (fuel : Nat) (st : ParseState) (c d : Char)
    (rest : List Char) (hq : st.inQuotes = true)
    (hcq : ¬ c = st.quoteChar) (hcb : c = '\\') :
    parseLoopF (fuel + 1) st (c :: d :: rest) =
      parseLoopF fuel { st with current := st.current ++ escMap d } rest :=
  by
  show (if st.inQuotes = false then _ else _) = _
  rw [if_neg (show ¬ st.inQuotes = false by simp [hq]), if_neg hcq,
    if_pos hcb]

/-- A lone trailing backslash in quotes is written literally. -/
theorem parseLoopF_inq_trailing (fuel : Nat) (st : ParseState) (c : Char)
    (hq : st.inQuotes = true) (hcq : ¬ c = st.quoteChar)
    (hcb : c = '\\') :
    parseLoopF (fuel + 1) st [c] =
      parseLoopF fuel { st with current := st.current ++ [c] } [] := by
  show (if st.inQuotes = false then _ else _) = _
  rw [if_neg (show ¬ st.inQuotes = false by simp [hq]), if_neg hcq,
    if_pos hcb]

/-- Unfolding `noCloseQuote` on a cons cell. -/
theorem noCloseQuote_cons (q c : Char) (cs : List Char) :
    noCloseQuote q (c :: cs) =
      if c = q then false
      else if c = '\\' then
        (match cs with
          | _ :: rest => noCloseQuote q rest
          | [] => true)
      else noCloseQuote q cs := by cases cs <;> rfl

/-- Unfolding `escChars` on a cons cell. -/
theorem escChars_cons (c : Char) (cs : List Char) :
    escChars (c :: cs) =
      if c = '\\' then
        (match cs with
          | d :: rest => escMap d ++ escChars rest
          | [] => [c])
      else c :: escChars cs := by cases cs <;> rfl

/-- From any in-quote state, when the matching closing quote never
occurs, the loop just accumulates the remaining characters into
`current`, applying the escape table — `parts` is untouched and the
quote never closes. -/
theorem parseLoopF_inQuotes_no_close (fuel : Nat) :
    ∀ (cs : List Char) (st : ParseState), cs.length ≤ fuel →
      st.inQuotes = true → noCloseQuote st.quoteChar cs = true →
      parseLoopF fuel st cs =
        { st with current := st.current ++ escChars cs } := by
  induction fuel with
  | zero =>
    intro cs st hle _ _
    cases cs with
    | nil => simp [parseLoopF, escChars]
    | cons c cs' => simp at hle
  | succ fuel ih =>
    intro cs st hle hq hnc
    cases cs with
    | nil => simp [parseLoopF_nil, escChars]
    | cons c cs' =>
      rw [noCloseQuote_cons] at hnc
      by_cases hcq : c = st.quoteChar
      · rw [if_pos hcq] at hnc
        exact absurd hnc Bool.false_ne_true
      rw [if_neg hcq] at hnc
      by_cases hcb : c = '\\'
      · rw [if_pos hcb] at hnc
        cases cs' with
        | nil =>
          rw [parseLoopF_inq_trailing fuel st c hq hcq hcb, parseLoopF_nil]
          have he : escChars [c] = [c] := by
            rw [escChars_cons, if_pos hcb]
          rw [he]
        | cons d rest =>
          have hnc' : noCloseQuote st.quoteChar rest = true := hnc
          have hle' : rest.length ≤ fuel := by
            simp only [List.length_cons] at hle
            omega
          rw [parseLoopF_inq_esc fuel st c d rest hq hcq hcb,
            ih rest { st with current := st.current ++ escMap d } hle' hq
              hnc']
          have he : escChars (c :: d :: rest) = escMap d ++ escChars rest :=
            by rw [escChars_cons, if_pos hcb]
          rw [he, List.append_assoc]
      · rw [if_neg hcb] at hnc
        have hle' : cs'.length ≤ fuel := by
          simp only [List.length_cons] at hle
          omega
        rw [parseLoopF_inq_lit fuel st c cs' hq hcq hcb,
          ih cs' { st with current := st.current ++ [c] } hle' hq hnc]
        have he : escChars (c :: cs') = c :: escChars cs' := by
          rw [escChars_cons, if_neg hcb]
        rw [he]
        simp

/-- C10.  Whenever the tokenizer has consumed an opening quote (any state
with `inQuotes` set) and the matching closing quote never appears in the
rest of the line, `ParseCommandWithQuotes`'s loop neither fails nor
discards input: the remaining characters, with escape sequences applied,
are accumulated onto the current token and the final flush returns them
as the last token. -/
theorem c10_unclosed_quote_keeps_final_token (st : ParseState)
    (cs : List Char) (hq : st.inQuotes = true)
    (hnc : noCloseQuote st.quoteChar cs = true)
    (hne : st.current ++ escChars cs ≠ []) :
    parseFinish (parseLoop st cs) =
      st.parts ++ [String.mk (st.current ++ escChars cs)] := by
  rw [parseLoop, parseLoopF_inQuotes_no_close cs.length cs st le_rfl hq hnc]
  unfold parseFinish
  rw [if_pos hne]

/-- C10 witness: the state just after `SET k "` has been consumed, with
the unterminated remainder `hello \n world`; the token `hello ↵ world`
(escape applied) is returned as the final token. -/
theorem c10_witness :
    parseFinish (parseLoop
      { parts := ["SET", "k"], current := [], inQuotes := true,
        quoteChar := '"' } "hello \\n world".data) =
      ["SET", "k", "hello \n world"] := by
  have h := c10_unclosed_quote_keeps_final_token
    { parts := ["SET", "k"], current := [], inQuotes := true,
      quoteChar := '"' } "hello \\n world".data rfl (by decide) (by decide)
  exact h.trans (by decide)

/-! ## Claim C8 — the compaction fold -/

theorem lookupAssocCmd_insert_self (m : List (String × Command))
    (k : String) (cmd : Command) :
    lookupAssocCmd (insertAssocCmd m k cmd) k = some cmd := by
  induction m with
  | nil => simp [insertAssocCmd, lookupAssocCmd, List.find?]
  | cons p rest ih =>
    by_cases hp : p.1 = k
    · simp [insertAssocCmd, hp, lookupAssocCmd, List.find?]
    · simp only [insertAssocCmd]
      rw [if_neg (by exact hp)]
      simpa [lookupAssocCmd, List.find?, hp] using ih

theorem lookupAssocCmd_insert_other (m : List (String × Command))
    (k k' : String) (cmd : Command) (hne : ¬ k' = k) :
    lookupAssocCmd (insertAssocCmd m k cmd) k' = lookupAssocCmd m k' := by
  have hne' : ¬ k = k' := fun h => hne h.symm
  induction m with
  | nil => simp [insertAssocCmd, lookupAssocCmd, List.find?, hne']
  | cons p rest ih =>
    by_cases hp : p.1 = k
    · subst hp
      simp [insertAssocCmd, lookupAssocCmd, List.find?, hne']
    · simp only [insertAssocCmd]
      rw [if_neg (by exact hp)]
      by_cases hp' : p.1 = k'
      · simp [lookupAssocCmd, List.find?, hp']
      · simpa [lookupAssocCmd, List.find?, hp'] using ih

/-- Unfolding `compactStep` when the key is new. -/
theorem compactStep_none (m : List (String × Command)) (cmd : Command)
    (h : lookupAssocCmd m cmd.key = none) :
    compactStep m cmd = insertAssocCmd m cmd.key cmd := by
  unfold compactStep
  rw [h]

/-- Unfolding `compactStep` when the key already has a survivor. -/
theorem compactStep_some (m : List (String × Command)) (cmd e : Command)
    (h : lookupAssocCmd m cmd.key = some e) :
    compactStep m cmd =
      if isDelType cmd.type = true then insertAssocCmd m cmd.key cmd
      else if isDelType e.type = true then m
      else if cmd.timestamp > e.timestamp then
        insertAssocCmd m cmd.key cmd
      else m := by
  unfold compactStep
  rw [h]

/-- Unfolding `compactStepOpt` on an existing survivor. -/
theorem compactStepOpt_some (a c : Command) :
    compactStepOpt (some a) c =
      if isDelType c.type = true then some c
      else if isDelType a.type = true then some a
      else if c.timestamp > a.timestamp then some c
      else some a := rfl

theorem lookup_compactStep_other (m : List (String × Command))
    (cmd : Command) (k : String) (h : ¬ cmd.key = k) :
    lookupAssocCmd (compactStep m cmd) k = lookupAssocCmd m k := by
  have hne : ¬ k = cmd.key := fun hh => h hh.symm
  cases he : lookupAssocCmd m cmd.key with
  | none =>
    rw [compactStep_none m cmd he]
    exact lookupAssocCmd_insert_other m cmd.key k cmd hne
  | some e =>
    rw [compactStep_some m cmd e he]
    by_cases h1 : isDelType cmd.type = true
    · rw [if_pos h1]
      exact lookupAssocCmd_insert_other m cmd.key k cmd hne
    · rw [if_neg h1]
      by_cases h2 : isDelType e.type = true
      · rw [if_pos h2]
      · rw [if_neg h2]
        by_cases h3 : cmd.timestamp > e.timestamp
        · rw [if_pos h3]
          exact lookupAssocCmd_insert_other m cmd.key k cmd hne
        · rw [if_neg h3]

theorem lookup_compactStep_self (m : List (String × Command))
    (cmd : Command) :
    lookupAssocCmd (compactStep m cmd) cmd.key =
      compactStepOpt (lookupAssocCmd m cmd.key) cmd := by
  cases he : lookupAssocCmd m cmd.key with
  | none =>
    rw [compactStep_none m cmd he]
    exact lookupAssocCmd_insert_self m cmd.key cmd
  | some e =>
    rw [compactStep_some m cmd e he, compactStepOpt_some]
    by_cases h1 : isDelType cmd.type = true
    · rw [if_pos h1, if_pos h1]
      exact lookupAssocCmd_insert_self m cmd.key cmd
    · rw [if_neg h1, if_neg h1]
      by_cases h2 : isDelType e.type = true
      · rw [if_pos h2, if_pos h2, he]
      · rw [if_neg h2, if_neg h2]
        by_cases h3 : cmd.timestamp > e.timestamp
        · rw [if_pos h3, if_pos h3]
          exact lookupAssocCmd_insert_self m cmd.key cmd
        · rw [if_neg h3, if_neg h3, he]

/-- The survivor for key `k` of the whole fold is the single-key fold
over just the records for `k`, in encounter order. -/
theorem lookup_compactFold_eq (cmds : List Command)
    (m : List (String × Command)) (k : String) :
    lookupAssocCmd (cmds.foldl compactStep m) k =
      (cmds.filter (fun c => c.key = k)).foldl compactStepOpt
        (lookupAssocCmd m k) := by
  induction cmds generalizing m with
  | nil => rfl
  | cons cmd rest ih =>
    simp only [List.foldl_cons, List.filter_cons]
    by_cases hk : cmd.key = k
    · rw [if_pos (by simp [hk])]
      rw [ih (compactStep m cmd)]
      subst hk
      rw [lookup_compactStep_self m cmd, List.foldl_cons]
    · rw [if_neg (by simp [hk])]
      rw [ih (compactStep m cmd), lookup_compactStep_other m cmd k hk]

/-- Folding one-key records from an existing survivor: the result is one
of the records (or the start), it is a delete iff the start or any record
is, and with no delete in sight the largest timestamp survives. -/
theorem compactStepOpt_foldl_props (rs : List Command) :
    ∀ a : Command, ∃ r, rs.foldl compactStepOpt (some a) = some r ∧
      (r = a ∨ r ∈ rs) ∧
      (isDelType r.type =
        (isDelType a.type || rs.any (fun c => isDelType c.type))) ∧
      ((isDelType a.type || rs.any (fun c => isDelType c.type)) = false →
        a.timestamp ≤ r.timestamp ∧
          ∀ c ∈ rs, c.timestamp ≤ r.timestamp) := by
  induction rs with
  | nil =>
    intro a
    exact ⟨a, rfl, Or.inl rfl, by simp, fun _ => ⟨le_refl _, by simp⟩⟩
  | cons c rest ih =>
    intro a
    have hstep : ∃ a', compactStepOpt (some a) c = some a' ∧
        (a' = a ∨ a' = c) ∧
        (isDelType a'.type = (isDelType a.type || isDelType c.type)) ∧
        ((isDelType a.type || isDelType c.type) = false →
          a.timestamp ≤ a'.timestamp ∧ c.timestamp ≤ a'.timestamp) := by
      rw [compactStepOpt_some]
      by_cases h1 : isDelType c.type = true
      · refine ⟨c, by rw [if_pos h1], Or.inr rfl, ?_, ?_⟩
        · simp [h1]
        · simp [h1]
      · rw [if_neg h1]
        by_cases h2 : isDelType a.type = true
        · refine ⟨a, by rw [if_pos h2], Or.inl rfl, ?_, ?_⟩
          · simp [h2, Bool.eq_false_iff.mpr h1]
          · simp [h2]
        · rw [if_neg h2]
          by_cases h3 : c.timestamp > a.timestamp
          · refine ⟨c, by rw [if_pos h3], Or.inr rfl, ?_, ?_⟩
            · simp [Bool.eq_false_iff.mpr h1, Bool.eq_false_iff.mpr h2]
            · exact fun _ => ⟨le_of_lt h3, le_refl _⟩
          · refine ⟨a, by rw [if_neg h3], Or.inl rfl, ?_, ?_⟩
            · simp [Bool.eq_false_iff.mpr h1, Bool.eq_false_iff.mpr h2]
            · exact fun _ => ⟨le_refl _, by omega⟩
    obtain ⟨a', hstep, hmem', hdel', hts'⟩ := hstep
    obtain ⟨r, hr, hmem, hdel, hts⟩ := ih a'
    refine ⟨r, ?_, ?_, ?_, ?_⟩
    · rw [List.foldl_cons, hstep, hr]
    · rcases hmem with h | h
      · subst h
        rcases hmem' with h | h
        · exact Or.inl h
        · exact Or.inr (h ▸ List.mem_cons_self c rest)
      · exact Or.inr (List.mem_cons_of_mem c h)
    · rw [hdel, hdel', List.any_cons]
      simp [Bool.or_assoc]
    · intro hno
      rw [List.any_cons] at hno
      have hno' : (isDelType a.type || isDelType c.type) = false := by
        simp only [Bool.or_eq_false_iff] at hno ⊢
        exact ⟨hno.1, hno.2.1⟩
      have hno'' : (isDelType a'.type ||
          rest.any (fun c => isDelType c.type)) = false := by
        simp only [Bool.or_eq_false_iff] at hno ⊢
        rw [hdel']
        simp only [Bool.or_eq_false_iff]
        exact ⟨⟨hno.1, hno.2.1⟩, hno.2.2⟩
      obtain ⟨ha'r, hallr⟩ := hts hno''
      obtain ⟨haa', hca'⟩ := hts' hno'
      refine ⟨le_trans haa' ha'r, ?_⟩
      intro x hx
      rcases List.mem_cons.mp hx with h | h
      · exact h ▸ le_trans hca' ha'r
      · exact hallr x h

/-- C8.  For every list of parsed ACL records and every key `k`: if no
record mentions `k` the compaction map holds nothing for `k`; otherwise
the surviving record for `k` is one of `k`'s records, it is a
`DEL/DELS/DELX` exactly when at least one of `k`'s records is (regardless
of timestamps and of encounter order), and when no delete record is
present the survivor carries the largest `timestamp_nanos` among `k`'s
records. -/
theorem c8_compaction_delete_wins_else_latest (cmds : List Command)
    (k : String) :
    ((cmds.filter (fun c => c.key = k)) = [] →
      lookupAssocCmd (compactFold cmds) k = none) ∧
    (∀ c0 rest, cmds.filter (fun c => c.key = k) = c0 :: rest →
      ∃ r, lookupAssocCmd (compactFold cmds) k = some r ∧
        r ∈ cmds.filter (fun c => c.key = k) ∧
        (isDelType r.type =
          (cmds.filter (fun c => c.key = k)).any
            (fun c => isDelType c.type)) ∧
        ((cmds.filter (fun c => c.key = k)).any
            (fun c => isDelType c.type) = false →
          ∀ c ∈ cmds.filter (fun c => c.key = k),
            c.timestamp ≤ r.timestamp)) := by
  have hbase : lookupAssocCmd ([] : List (String × Command)) k = none := rfl
  constructor
  · intro hnil
    rw [compactFold, lookup_compactFold_eq cmds [] k, hbase, hnil]
    rfl
  · intro c0 rest hfilter
    rw [compactFold, lookup_compactFold_eq cmds [] k, hbase, hfilter]
    rw [List.foldl_cons]
    have hstep0 : compactStepOpt none c0 = some c0 := rfl
    rw [hstep0]
    obtain ⟨r, hr, hmem, hdel, hts⟩ := compactStepOpt_foldl_props rest c0
    refine ⟨r, hr, ?_, ?_, ?_⟩
    · rcases hmem with h | h
      · exact h ▸ List.mem_cons_self c0 rest
      · exact List.mem_cons_of_mem c0 h
    · rw [List.any_cons, hdel]
    · intro hno
      rw [List.any_cons] at hno
      intro c hc
      obtain ⟨h1, h2⟩ := hts (by
        simp only [Bool.or_eq_false_iff] at hno
        simp [hno.1, hno.2])
      rcases List.mem_cons.mp hc with h | h
      · exact h ▸ h1
      · exact h2 c h

/-- C8 witness: among the records for `"k"` — `SET` at `t = 5`, `DEL` at
`t = 1`, `SET` at `t = 9` — the delete survives even though both sets
have larger timestamps. -/
theorem c8_witness :
    ∃ r, lookupAssocCmd (compactFold c8Records) "k" = some r ∧
      isDelType r.type = true := by
  obtain ⟨r, hr, _, hdel, _⟩ :=
    (c8_compaction_delete_wins_else_latest c8Records "k").2
      { timestamp := 5, type := "SET", key := "k", value := .str "a",
        ttl := 0 }
      [{ timestamp := 1, type := "DEL", key := "k", value := .str "",
         ttl := 0 },
       { timestamp := 9, type := "SET", key := "k", value := .str "b",
         ttl := 0 }]
      (by decide)
  refine ⟨r, hr, ?_⟩
  rw [hdel]
  decide

/-! ## Claim C3 — ATD snapshot round trip -/

theorem readN_len (n : Nat) (xs rest : List Nat) (h : xs.length = n) :
    readN n (xs ++ rest) = some (xs, rest) := by
  subst h
  rw [readN, if_neg (by simp), List.take_left, List.drop_left]

theorem strBytes_length (s : String) : (strBytes s).length = s.length := by
  rw [strBytes, List.length_map]
  rfl

theorem strOfBytes_strBytes (s : String) : strOfBytes (strBytes s) = s := by
  rw [strOfBytes, strBytes, List.map_map]
  have h : s.data.map (Char.ofNat ∘ Char.toNat) = s.data.map id :=
    List.map_congr_left (fun c _ => Char.ofNat_toNat c)
  rw [h, List.map_id]

set_option maxRecDepth 4000 in
theorem decodeAtdElems_enc (xs : List String) (rest : List Nat)
    (h : ∀ x ∈ xs, x.length < 65536) :
    decodeAtdElems xs.length
      (xs.flatMap (fun s => encodeU16 s.length ++ strBytes s) ++ rest) =
      some (xs, rest) := by
  induction xs with
  | nil => rfl
  | cons x xs ih =>
    have hx : x.length < 65536 := h x (List.mem_cons_self x xs)
    have hxs : ∀ y ∈ xs, y.length < 65536 :=
      fun y hy => h y (List.mem_cons_of_mem x hy)
    simp only [List.flatMap_cons, List.length_cons, List.append_assoc,
      decodeAtdElems, decodeU16_encodeU16 _ _ hx,
      readN_len x.length (strBytes x) _ (strBytes_length x),
      ih hxs, strOfBytes_strBytes]

set_option maxRecDepth 4000 in
theorem decodeAtdEntries_enc (es : List (String × String)) :
    ∀ (object : List (String × String)) (rest : List Nat),
      (∀ p ∈ es, p.1.length < 65536 ∧ p.2.length < 65536) →
      ((object.map Prod.fst ++ es.map Prod.fst)).Nodup →
      decodeAtdEntries es.length object
        (es.flatMap (fun p =>
          encodeU16 p.1.length ++ (strBytes p.1 ++
          (encodeU16 p.2.length ++ strBytes p.2))) ++ rest) =
        some (object ++ es, rest) := by
  induction es with
  | nil =>
    intro object rest _ _
    simp [decodeAtdEntries]
  | cons p es ih =>
    intro object rest h hnd
    have hp := h p (List.mem_cons_self p es)
    have hes : ∀ q ∈ es, q.1.length < 65536 ∧ q.2.length < 65536 :=
      fun q hq => h q (List.mem_cons_of_mem p hq)
    have hnotin : ∀ q ∈ object, ¬ q.1 = p.1 := by
      intro q hq hq1
      have h1 : q.1 ∈ object.map Prod.fst := List.mem_map_of_mem _ hq
      have h2 : q.1 ∈ (p :: es).map Prod.fst := by simp [hq1]
      exact (List.nodup_append.mp hnd).2.2 h1 h2
    have hins : insertAssocStr object p.1 p.2 = object ++ [(p.1, p.2)] := by
      clear hnd ih
      induction object with
      | nil => rfl
      | cons q qs ihq =>
        have hq1 : ¬ q.1 = p.1 := hnotin q (List.mem_cons_self q qs)
        simp only [insertAssocStr]
        rw [if_neg hq1,
          ihq (fun r hr => hnotin r (List.mem_cons_of_mem q hr))]
        simp
    have hnd' : (((object ++ [(p.1, p.2)]).map Prod.fst) ++
        es.map Prod.fst).Nodup := by
      rw [List.map_append, List.append_assoc]
      exact hnd
    simp only [List.flatMap_cons, List.length_cons, List.append_assoc,
      decodeAtdEntries, decodeU16_encodeU16 _ _ hp.1,
      readN_len p.1.length (strBytes p.1) _ (strBytes_length p.1),
      decodeU16_encodeU16 _ _ hp.2,
      readN_len p.2.length (strBytes p.2) _ (strBytes_length p.2),
      strOfBytes_strBytes, hins]
    rw [ih (object ++ [(p.1, p.2)]) rest hes hnd']
    simp

set_option maxRecDepth 4000 in
theorem decodeAtdValue_enc (v : Value) (rest : List Nat)
    (hwf : wfValue v = true) :
    decodeAtdValue (encodeAtdValue v ++ rest) = some (v, rest) := by
  cases v with
  | str s =>
    have hlen : s.length < 4294967296 := by
      simpa [wfValue] using hwf
    simp [encodeAtdValue, decodeAtdValue, List.append_assoc,
      decodeU32_encodeU32 _ _ hlen,
      readN_len s.length (strBytes s) _ (strBytes_length s),
      strOfBytes_strBytes]
  | arr xs =>
    rw [wfValue, Bool.and_eq_true, decide_eq_true_eq,
      List.all_eq_true] at hwf
    have hlen : xs.length < 65536 := hwf.1
    have helems : ∀ x ∈ xs, x.length < 65536 := by
      intro x hx
      simpa using hwf.2 x hx
    simp [encodeAtdValue, decodeAtdValue, List.append_assoc,
      decodeU16_encodeU16 _ _ hlen, decodeAtdElems_enc xs rest helems]
  | obj es =>
    rw [wfValue, Bool.and_eq_true, Bool.and_eq_true, decide_eq_true_eq,
      decide_eq_true_eq, List.all_eq_true] at hwf
    have hlen : es.length < 65536 := hwf.1.1
    have hnd : (([] : List (String × String)).map Prod.fst ++
        es.map Prod.fst).Nodup := by
      simpa using hwf.1.2
    have hes : ∀ p ∈ es, p.1.length < 65536 ∧ p.2.length < 65536 := by
      intro p hp
      have := hwf.2 p hp
      simp only [Bool.and_eq_true, decide_eq_true_eq] at this
      exact this
    have hent := decodeAtdEntries_enc es [] rest hes hnd
    simp only [List.nil_append] at hent
    simp [encodeAtdValue, decodeAtdValue, List.append_assoc,
      decodeU16_encodeU16 _ _ hlen, hent]

set_option maxRecDepth 4000 in
theorem readAtdItem_enc (k : String) (it : CacheItem) (rest : List Nat)
    (now : Int) (hwf : wfItem k it = true)
    (hlive : ¬ (it.expiration > 0 ∧ now > it.expiration)) :
    readAtdItem (encodeU16 k.length ++ (strBytes k ++
      (encodeAtdValue it.value ++ (encodeI64 it.expiration ++ rest))))
      now =
      some (k, some (loadedItem k it), rest) := by
  rw [wfItem, Bool.and_eq_true, Bool.and_eq_true, Bool.and_eq_true,
    decide_eq_true_eq, decide_eq_true_eq, decide_eq_true_eq] at hwf
  obtain ⟨⟨⟨hk, hv⟩, he1⟩, he2⟩ := hwf
  simp [readAtdItem, decodeU16_encodeU16 _ _ hk,
    readN_len k.length (strBytes k) _ (strBytes_length k),
    decodeAtdValue_enc it.value _ hv,
    decodeI64_encodeI64 it.expiration _ he1 he2,
    strOfBytes_strBytes, hlive, loadedItem]

theorem insertItem_notmem (items : List (String × CacheItem))
    (key : String) (item : CacheItem)
    (h : ∀ p ∈ items, ¬ p.1 = key) :
    insertItem items key item = items ++ [(key, item)] := by
  induction items with
  | nil => rfl
  | cons q qs ih =>
    have hq : ¬ q.1 = key := h q (List.mem_cons_self q qs)
    simp only [insertItem]
    rw [if_neg hq, ih (fun r hr => h r (List.mem_cons_of_mem q hr))]
    simp

theorem length_le_flatMap_enc (L : List (String × CacheItem)) :
    L.length ≤ (L.flatMap (fun p => encodeAtdItem p.1 p.2)).length := by
  induction L with
  | nil => simp
  | cons p L ih =>
    simp only [List.flatMap_cons, List.length_cons, List.length_append]
    have : 1 ≤ (encodeAtdItem p.1 p.2).length := by
      simp [encodeAtdItem]
    omega

set_option maxRecDepth 4000 in
theorem loadAtdRecords_enc (now : Int) (L : List (String × CacheItem)) :
    ∀ (c : Cache) (fuel : Nat), L.length + 1 ≤ fuel →
      (∀ p ∈ L, wfItem p.1 p.2 = true ∧
        ¬ (p.2.expiration > 0 ∧ now > p.2.expiration)) →
      (c.items.map Prod.fst ++ L.map Prod.fst).Nodup →
      ∃ heap, loadAtdRecords fuel c now
          (L.flatMap (fun p => encodeAtdItem p.1 p.2) ++ [255]) =
        some { items := c.items ++ L.map loadedImage,
               expirationHeap := heap } := by
  induction L with
  | nil =>
    intro c fuel hfuel _ _
    cases fuel with
    | zero => omega
    | succ f =>
      refine ⟨c.expirationHeap, ?_⟩
      simp [loadAtdRecords]
  | cons p L ih =>
    intro c fuel hfuel hall hnd
    cases fuel with
    | zero => omega
    | succ f =>
      obtain ⟨hwf, hlive⟩ := hall p (List.mem_cons_self p L)
      have hL : ∀ q ∈ L, wfItem q.1 q.2 = true ∧
          ¬ (q.2.expiration > 0 ∧ now > q.2.expiration) :=
        fun q hq => hall q (List.mem_cons_of_mem p hq)
      have hnotin : ∀ q ∈ c.items, ¬ q.1 = p.1 := by
        intro q hq hq1
        have h1 : q.1 ∈ c.items.map Prod.fst := List.mem_map_of_mem _ hq
        have h2 : q.1 ∈ (p :: L).map Prod.fst := by simp [hq1]
        exact (List.nodup_append.mp hnd).2.2 h1 h2
      have hreaditem := readAtdItem_enc p.1 p.2
        (L.flatMap (fun q => encodeAtdItem q.1 q.2) ++ [255]) now hwf hlive
      have hstream : (((p :: L).flatMap fun q => encodeAtdItem q.1 q.2) ++
          [255]) =
          1 :: (encodeU16 p.1.length ++ (strBytes p.1 ++
            (encodeAtdValue p.2.value ++ (encodeI64 p.2.expiration ++
              ((L.flatMap fun q => encodeAtdItem q.1 q.2) ++ [255]))))) := by
        simp only [List.flatMap_cons]
        rw [encodeAtdItem]
        simp [List.append_assoc]
      have hstep : loadAtdRecords (f + 1) c now
          (((p :: L).flatMap fun q => encodeAtdItem q.1 q.2) ++ [255]) =
          loadAtdRecords f
            { items := insertItem c.items p.1 (loadedItem p.1 p.2),
              expirationHeap :=
                if (loadedItem p.1 p.2).expiration > 0 then
                  heapPushGo c.expirationHeap (loadedItem p.1 p.2)
                else c.expirationHeap }
            now ((L.flatMap fun q => encodeAtdItem q.1 q.2) ++ [255]) := by
        rw [hstream]
        simp only [loadAtdRecords, if_true]
        rw [hreaditem]
      have hnd' : ((c.items ++ [(p.1, loadedItem p.1 p.2)]).map Prod.fst ++
          L.map Prod.fst).Nodup := by
        rw [List.map_append, List.append_assoc]
        simpa using hnd
      obtain ⟨heap, hrec⟩ := ih
        { items := c.items ++ [(p.1, loadedItem p.1 p.2)],
          expirationHeap :=
            if (loadedItem p.1 p.2).expiration > 0 then
              heapPushGo c.expirationHeap (loadedItem p.1 p.2)
            else c.expirationHeap }
        f (by simp only [List.length_cons] at hfuel; omega) hL hnd'
      refine ⟨heap, ?_⟩
      rw [hstep, insertItem_notmem c.items p.1 _ hnotin, hrec]
      simp [loadedImage, List.append_assoc]

theorem readAtdHeader_roundtrip (nowSec : Int) (rest : List Nat) :
    readAtdHeader (writeAtdHeader nowSec ++ rest) = some rest := by
  obtain ⟨v, hv⟩ := decodeI64_encodeI64_consumes nowSec rest
  simp [writeAtdHeader, readAtdHeader, List.append_assoc,
    decodeU32_encodeU32 MAGIC_HEADER _ (by norm_num [MAGIC_HEADER]), hv]

/-- C3 amended (round trip modulo the lost type tag).  For any keyspace
whose keys are unique and whose keys/values fit the ATD length fields,
`SaveAtd` followed by `LoadAtd` into a clean keyspace yields exactly the
items not expired at save time, each with identical key, identical value
and identical `expires_at` — but with the `Type` field left empty, since
`readAtdItem` never restores it. -/
theorem c3_saveatd_loadatd_roundtrip (c : Cache) (nowSec now : Int)
    (hwf : wfCache c = true) :
    (loadAtd (saveAtd c nowSec now) now).map Cache.items =
      some ((liveItems c now).map loadedImage) := by
  rw [wfCache, Bool.and_eq_true, decide_eq_true_eq, List.all_eq_true]
    at hwf
  obtain ⟨hnodup, hitems⟩ := hwf
  have hsave : saveAtd c nowSec now =
      writeAtdHeader nowSec ++
        ((liveItems c now).flatMap (fun p => encodeAtdItem p.1 p.2) ++
          [255]) := by
    rw [saveAtd, liveItems, List.append_assoc]
  have hLsub : (liveItems c now).Sublist c.items := by
    rw [liveItems]
    exact List.filter_sublist c.items
  have hLwf : ∀ p ∈ liveItems c now, wfItem p.1 p.2 = true ∧
      ¬ (p.2.expiration > 0 ∧ now > p.2.expiration) := by
    intro p hp
    rw [liveItems] at hp
    refine ⟨?_, ?_⟩
    · exact hitems p (List.mem_of_mem_filter hp)
    · have := List.of_mem_filter hp
      simp at this
      omega
  have hLnodup : ((Cache.New.items.map Prod.fst) ++
      (liveItems c now).map Prod.fst).Nodup := by
    have : ((liveItems c now).map Prod.fst).Sublist
        (c.items.map Prod.fst) := hLsub.map Prod.fst
    simpa [Cache.New] using hnodup.sublist this
  obtain ⟨heap, hrec⟩ := loadAtdRecords_enc now (liveItems c now)
    Cache.New
    (((liveItems c now).flatMap (fun p => encodeAtdItem p.1 p.2) ++
      [255]).length + 1)
    (by
      have := length_le_flatMap_enc (liveItems c now)
      simp only [List.length_append, List.length_cons, List.length_nil]
      omega)
    hLwf hLnodup
  have hload : loadAtd (saveAtd c nowSec now) now =
      some { items := Cache.New.items ++
               (liveItems c now).map loadedImage,
             expirationHeap := heap } := by
    rw [hsave, loadAtd, readAtdHeader_roundtrip]
    exact hrec
  rw [hload]
  simp [Cache.New]

/-- C3 counterexample.  The claim requires the loaded items to carry an
*identical type tag*; evaluating the round trip on a keyspace holding one
item tagged `"string"` shows the loaded item's `Type` is the empty
string. -/
theorem c3_counterexample :
    (loadAtd (saveAtd c3State 0 0) 0).map
        (fun c => c.items.map (fun p => p.2.type)) = some [""] ∧
    c3State.items.map (fun p => p.2.type) = ["string"] := by
  constructor
  · rfl
  · rfl

/-- C3 witness: the amended round trip evaluated on a keyspace with a
live string, array and object plus one expired item — the expired item is
dropped, keys/values/expirations survive, the type tags come back
empty. -/
theorem c3_witness :
    (loadAtd (saveAtd c3WitState 5 10) 10).map Cache.items =
      some
        [("s", { value := .str "v1", expiration := 0, index := 0,
                 key := "s", type := "" }),
         ("a", { value := .arr ["x", "y"], expiration := 50, index := 0,
                 key := "a", type := "" }),
         ("o", { value := .obj [("f", "1"), ("g", "2")], expiration := 0,
                 index := 0, key := "o", type := "" })] := by
  have h := c3_saveatd_loadatd_roundtrip c3WitState 5 10 (by decide)
  exact h.trans (by decide)

end AntCache
